import Mathlib

/-!
Verification of the partial-document update engine of the
`powerpoint-python-pptx-mcp` repository.

The definitions below are a shallow embedding of the Python code in
`src/mcp_server/core/safe_editor.py`, `src/mcp_server/utils/validators.py`
and `src/mcp_server/tools/notes_tools.py`:

* zip containers (`zipfile.ZipFile` entries and metadata) become lists of
  `ZipEntry` records whose payloads are byte lists;
* the container-rewriting loop of `update_notes_safe` becomes
  `rewriteContainer`;
* relationship resolution (`_notes_part_for_slide`) becomes
  `notes_part_for_slide_z`, with lxml's relationship parsing abstracted as a
  function parameter from raw bytes to parsed `Relationship` records;
* the notes-XML rewriter (`_set_notes_text`) is embedded at the level of
  parsed element trees (`Elem`), with lxml's parse/serialize round trip
  (which is deterministic and faithful for the constructs involved)
  factored out;
* the in-place atomic commit (`update_notes_safe_in_place`) becomes a
  step-by-step state transformer over an association-list filesystem with
  explicit failure-injection flags;
* batch validation and the batch tool handler become `validate_batch_updates`
  and `handle_update_notes_batch_m`.

Python strings are modelled as Lean `String`s, with the handful of string
operations used by the code (`str.replace`, `str.split`, `str.strip`,
`re.sub` over a character class, `str.startswith`) re-implemented by
structural recursion over the character list so that all definitions
evaluate by `decide`/`rfl`.
-/

/-! ## Zip container model (`zipfile` entries as used by `update_notes_safe`) -/

/-- One zip central-directory entry as `update_notes_safe` consumes it:
`zipfile.ZipInfo` metadata plus the entry's decompressed payload bytes.
`ext_attr`/`int_attr` stand for `external_attr`/`internal_attr`. -/
structure ZipEntry where
  filename : String
  data : List Nat
  compress_type : Nat
  date_time : List Nat
  ext_attr : Nat
  int_attr : Nat
  extra : List Nat
  comment : List Nat
  create_system : Nat
deriving DecidableEq, Repr

/-- `zipfile.ZIP_DEFLATED`. -/
def ZIP_DEFLATED : Nat := 8

/-- `zipfile.ZIP_STORED`. -/
def ZIP_STORED : Nat := 0

/-- `ZipFile.read(name)`: `zipfile` resolves a name through `NameToInfo`,
which is built by iterating the entries, so the last entry with a given
name wins. -/
def zipRead (z : List ZipEntry) (nm : String) : Option (List Nat) :=
  z.foldl (fun acc e => if e.filename == nm then some e.data else acc) none

/-- Python `dict` lookup for a string-keyed association list whose keys are
kept unique by `dictInsert`. -/
def dictLookup {V : Type} : List (String × V) → String → Option V
  | [], _ => none
  | (k, v) :: rest, nm => if k == nm then some v else dictLookup rest nm

/-- Python `dict` assignment `d[k] = v`: overwrite in place if the key
exists, else append (preserving insertion order). -/
def dictInsert {V : Type} : List (String × V) → String → V → List (String × V)
  | [], nm, v => [(nm, v)]
  | (k, w) :: rest, nm, v =>
    if k == nm then (k, v) :: rest else (k, w) :: dictInsert rest nm v

/-- The container-rewriting phase of `update_notes_safe`
(`safe_editor.py` lines 151-163): stream every entry of the source zip in
order; substitute the payload when the entry name is a key of
`notes_updates`; copy the listed metadata fields; and set
`zi.compress_type = zipfile.ZIP_DEFLATED` unconditionally. -/
def rewriteContainer (zin : List ZipEntry) (notes_updates : List (String × List Nat)) :
    List ZipEntry :=
  zin.map fun item =>
    let data0 := (zipRead zin item.filename).getD []
    let data := match dictLookup notes_updates item.filename with
      | some d => d
      | none => data0
    { filename := item.filename
      data := data
      compress_type := ZIP_DEFLATED
      date_time := item.date_time
      ext_attr := item.ext_attr
      int_attr := item.int_attr
      extra := item.extra
      comment := item.comment
      create_system := item.create_system }

/-! Basic facts about `zipRead` on containers with unique entry names. -/

theorem zipRead_eq_foldl (z : List ZipEntry) (nm : String) :
    zipRead z nm = z.foldl (fun acc e => if e.filename == nm then some e.data else acc) none :=
  rfl

theorem foldl_zipRead_acc (z : List ZipEntry) (nm : String) (acc : Option (List Nat)) :
    z.foldl (fun a e => if e.filename == nm then some e.data else a) acc =
      if (z.filter (fun e => e.filename == nm)) = [] then acc
      else z.foldl (fun a e => if e.filename == nm then some e.data else a) none := by
  induction z generalizing acc with
  | nil => simp
  | cons hd tl ih =>
    cases h : hd.filename == nm with
    | true =>
      simp only [List.foldl_cons, List.filter_cons, h, eq_self_iff_true, if_true]
      simp
    | false =>
      simp only [List.foldl_cons, List.filter_cons, h, Bool.false_eq_true, if_false]
      exact ih acc

/-- In a container whose entry names are pairwise distinct, `ZipFile.read`
on an entry's own name returns that entry's payload. -/
theorem zipRead_nodup (z : List ZipEntry) (h : (z.map ZipEntry.filename).Nodup)
    (e : ZipEntry) (he : e ∈ z) : zipRead z e.filename = some e.data := by
  induction z with
  | nil => cases he
  | cons hd tl ih =>
    simp only [List.map_cons, List.nodup_cons] at h
    rcases List.mem_cons.mp he with rfl | htl
    · show List.foldl _ (if e.filename == e.filename then some e.data else none) tl = _
      simp only [beq_self_eq_true, if_pos]
      rw [foldl_zipRead_acc]
      have : tl.filter (fun x => x.filename == e.filename) = [] := by
        rw [List.filter_eq_nil_iff]
        intro a ha
        simp only [beq_iff_eq]
        intro hc
        exact h.1 (hc ▸ List.mem_map_of_mem ZipEntry.filename ha)
      simp [this]
    · show List.foldl _ (if hd.filename == e.filename then some hd.data else none) tl = _
      have hne : (hd.filename == e.filename) = false := by
        simp only [beq_eq_false_iff_ne, ne_eq]
        intro hc
        exact h.1 (hc ▸ List.mem_map_of_mem ZipEntry.filename htl)
      rw [hne]
      simp only [Bool.false_eq_true, if_false]
      exact ih h.2 htl

/-! ## Claim C1: frame property of the container-rewriting phase -/

/-- Claim C1 (counterexample): the container-rewriting phase does NOT keep
an entry's original compression method.  A stored (`ZIP_STORED`) entry that
is not touched by the update map comes out with `compress_type =
ZIP_DEFLATED`, because the code sets `zi.compress_type = zipfile.ZIP_DEFLATED`
unconditionally. -/
theorem claim_C1_counterexample :
    (rewriteContainer
        [{ filename := "docProps/thumbnail.jpeg", data := [255, 216], compress_type := ZIP_STORED,
           date_time := [1980, 1, 1, 0, 0, 0], ext_attr := 0, int_attr := 0,
           extra := [], comment := [], create_system := 0 }] []).map ZipEntry.compress_type
      = [ZIP_DEFLATED] ∧ ZIP_DEFLATED ≠ ZIP_STORED := by
  exact ⟨rfl, by decide⟩

/-- Claim C1 (amended): for a source container with pairwise-distinct entry
names, the rewriting phase maps each entry in order to an entry with the
same name, the substituted payload when the name is a key of the map and the
original payload otherwise, the original timestamp, external/internal
attributes, extra field, comment and create-system — but with the
compression method unconditionally set to `ZIP_DEFLATED` rather than
preserved.  In particular no entry is added, removed or reordered. -/
theorem claim_C1 (zin : List ZipEntry) (m : List (String × List Nat))
    (hnodup : (zin.map ZipEntry.filename).Nodup) :
    rewriteContainer zin m =
      zin.map (fun e =>
        { filename := e.filename
          data := match dictLookup m e.filename with
            | some d => d
            | none => e.data
          compress_type := ZIP_DEFLATED
          date_time := e.date_time
          ext_attr := e.ext_attr
          int_attr := e.int_attr
          extra := e.extra
          comment := e.comment
          create_system := e.create_system }) ∧
    (rewriteContainer zin m).map ZipEntry.filename = zin.map ZipEntry.filename := by
  constructor
  · unfold rewriteContainer
    apply List.map_congr_left
    intro e he
    have hz : zipRead zin e.filename = some e.data := zipRead_nodup zin hnodup e he
    simp only [hz, Option.getD_some]
  · unfold rewriteContainer
    rw [List.map_map]
    rfl

/-- Witness for `claim_C1` at a concrete two-entry container, one entry
rewritten and one untouched. -/
theorem claim_C1_witness :
    rewriteContainer
        [{ filename := "ppt/notesSlides/notesSlide1.xml", data := [1], compress_type := 8,
           date_time := [2024, 1, 1, 0, 0, 0], ext_attr := 32, int_attr := 0,
           extra := [], comment := [], create_system := 3 },
         { filename := "ppt/media/image1.png", data := [9, 9], compress_type := 0,
           date_time := [2024, 1, 1, 0, 0, 0], ext_attr := 0, int_attr := 0,
           extra := [7], comment := [], create_system := 0 }]
        [("ppt/notesSlides/notesSlide1.xml", [5, 6])] =
      [{ filename := "ppt/notesSlides/notesSlide1.xml", data := [5, 6], compress_type := ZIP_DEFLATED,
         date_time := [2024, 1, 1, 0, 0, 0], ext_attr := 32, int_attr := 0,
         extra := [], comment := [], create_system := 3 },
       { filename := "ppt/media/image1.png", data := [9, 9], compress_type := ZIP_DEFLATED,
         date_time := [2024, 1, 1, 0, 0, 0], ext_attr := 0, int_attr := 0,
         extra := [7], comment := [], create_system := 0 }] := by
  have h := claim_C1
    [{ filename := "ppt/notesSlides/notesSlide1.xml", data := [1], compress_type := 8,
       date_time := [2024, 1, 1, 0, 0, 0], ext_attr := 32, int_attr := 0,
       extra := [], comment := [], create_system := 3 },
     { filename := "ppt/media/image1.png", data := [9, 9], compress_type := 0,
       date_time := [2024, 1, 1, 0, 0, 0], ext_attr := 0, int_attr := 0,
       extra := [7], comment := [], create_system := 0 }]
    [("ppt/notesSlides/notesSlide1.xml", [5, 6])]
    (by decide)
  rw [h.1]
  rfl

/-! ## Python string primitives

The Python code uses `str.replace`, slicing, `str.startswith`, `str.strip`,
`str.split` and a character-class `re.sub`.  They are re-implemented here by
structural recursion over the character list (with an explicit fuel equal to
the list length for `replace`, whose recursion skips over matches), so every
definition reduces in the kernel. -/

/-- Core of Python `str.replace`: leftmost, non-overlapping replacement of
`pat` by `rep`.  `fuel` bounds the recursion depth; callers pass the input
length, which suffices because every step consumes at least one character
(our patterns are never empty). -/
def pyReplaceCore (pat rep : List Char) : Nat → List Char → List Char
  | _, [] => []
  | 0, cs => cs
  | fuel + 1, c :: cs =>
    if pat.isPrefixOf (c :: cs) then
      rep ++ pyReplaceCore pat rep fuel (List.drop pat.length (c :: cs))
    else
      c :: pyReplaceCore pat rep fuel cs

/-- Python `s.replace(pat, rep)` for non-empty `pat`. -/
def pyReplace (s pat rep : String) : String :=
  String.mk (pyReplaceCore pat.data rep.data s.data.length s.data)

/-- Python `s.startswith(pre)`. -/
def pyStartsWith (s pre : String) : Bool :=
  pre.data.isPrefixOf s.data

/-! ## Relationship resolution (`_notes_part_for_slide`)

The function reads `ppt/slides/_rels/slide{n}.xml.rels` from the zip and
scans its `<Relationship>` elements.  lxml's XML parsing of the raw bytes is
abstracted as a caller-supplied `relParse` function from the bytes to the
parsed relationship records; everything after the parse is modelled
faithfully. -/

/-- One parsed `<Relationship>` element: the `Type`, `Target` and
`TargetMode` attributes (`none` when the attribute is absent). -/
structure Relationship where
  typ : String
  target : Option String
  targetMode : Option String
deriving DecidableEq, Repr

/-- The notesSlide relationship type string compared against `rel.get("Type")`. -/
def notesSlideRelType : String :=
  "http://schemas.openxmlformats.org/officeDocument/2006/relationships/notesSlide"

/-- Target normalization in `_notes_part_for_slide`:
`target.replace("\\", "/")`, strip one leading `"../"`, prefix `"ppt/"`. -/
def normalizeTarget (t : String) : String :=
  let t1 := pyReplace t "\\" "/"
  let t2 := if pyStartsWith t1 "../" then String.mk (t1.data.drop 3) else t1
  "ppt/" ++ t2

/-- The `for rel in root.findall(...)` loop of `_notes_part_for_slide`:
on the first relationship whose `Type` matches, return `None` if its
`Target` is absent or empty, else the normalized target; keep scanning
otherwise. -/
def findNotesRel : List Relationship → Option String
  | [] => none
  | r :: rest =>
    if r.typ == notesSlideRelType then
      match r.target with
      | none => none
      | some t => if t == "" then none else some (normalizeTarget t)
    else findNotesRel rest

/-- The expected relationships-part path `ppt/slides/_rels/slide{n}.xml.rels`. -/
def relPathForSlide (n : Int) : String :=
  "ppt/slides/_rels/slide" ++ toString n ++ ".xml.rels"

/-- `_notes_part_for_slide(zip_in, slide_no)` (`safe_editor.py` lines 26-45):
a missing relationships entry (`KeyError`) yields `None`; otherwise the
entry's bytes are parsed and scanned by `findNotesRel`. -/
def notes_part_for_slide_z (relParse : List Nat → List Relationship)
    (zin : List ZipEntry) (slide_no : Int) : Option String :=
  match zipRead zin (relPathForSlide slide_no) with
  | none => none
  | some b => findNotesRel (relParse b)

/-! ## Claims C4 and C9: behaviour of `_notes_part_for_slide` -/

/-- The relationship used by the C4 counterexample: a notesSlide-typed
relationship explicitly marked `TargetMode="External"`. -/
def c4rel : Relationship :=
  { typ := notesSlideRelType, target := some "../notesSlides/notesSlide1.xml",
    targetMode := some "External" }

/-- C4 counterexample container: the slide-1 relationships entry is present
(payload `[7]`), but the resolved notes part is not an entry. -/
def c4zip : List ZipEntry :=
  [{ filename := "ppt/slides/_rels/slide1.xml.rels", data := [7], compress_type := 8,
     date_time := [2024, 1, 1, 0, 0, 0], ext_attr := 0, int_attr := 0,
     extra := [], comment := [], create_system := 0 }]

/-- C4 counterexample parse: the slide-1 relationships bytes parse to the
single external relationship `c4rel`. -/
def c4parse (b : List Nat) : List Relationship :=
  if b == [7] then [c4rel] else []

/-- Claim C4 (counterexample): `_notes_part_for_slide` returns the
normalized target even though (a) the relationship is marked
`TargetMode="External"` and (b) the normalized path is not an entry of the
container — the claim says it must return `None` in either situation.  The
code never reads `TargetMode` and never checks container membership. -/
theorem claim_C4_counterexample :
    notes_part_for_slide_z c4parse c4zip 1 = some "ppt/notesSlides/notesSlide1.xml" ∧
    zipRead c4zip "ppt/notesSlides/notesSlide1.xml" = none ∧
    c4rel.targetMode = some "External" := by
  exact ⟨rfl, rfl, rfl⟩

/-- `findNotesRel` in terms of the first relationship whose `Type` matches:
everything else (later relationships, `TargetMode`, the rest of the
container) is ignored. -/
theorem findNotesRel_characterization (rels : List Relationship) :
    findNotesRel rels =
      match rels.find? (fun r => r.typ == notesSlideRelType) with
      | none => none
      | some r =>
        match r.target with
        | none => none
        | some t => if t == "" then none else some (normalizeTarget t) := by
  induction rels with
  | nil => rfl
  | cons r rest ih =>
    cases h : r.typ == notesSlideRelType with
    | true =>
      rw [findNotesRel, if_pos h,
        @List.find?_cons_of_pos _ (fun x => x.typ == notesSlideRelType) r rest h]
    | false =>
      rw [findNotesRel, if_neg (by simp [h]),
        @List.find?_cons_of_neg _ (fun x => x.typ == notesSlideRelType) r rest (by simp [h]), ih]

/-- Claim C4 (amended): `_notes_part_for_slide` returns `None` exactly when
the slide's relationships entry is absent, when no relationship of the
notesSlide `Type` exists, or when the first such relationship has a missing
or empty `Target`; otherwise it returns that first matching relationship's
target with backslashes replaced by slashes, a single leading `"../"`
stripped, and `"ppt/"` prefixed.  The target mode is never consulted, the
normalized path's presence in the container is never checked, and the
function is total (never raises). -/
theorem claim_C4 (relParse : List Nat → List Relationship) (zin : List ZipEntry) (n : Int) :
    notes_part_for_slide_z relParse zin n =
      match zipRead zin (relPathForSlide n) with
      | none => none
      | some b =>
        match (relParse b).find? (fun r => r.typ == notesSlideRelType) with
        | none => none
        | some r =>
          match r.target with
          | none => none
          | some t => if t == "" then none else some (normalizeTarget t) := by
  unfold notes_part_for_slide_z
  cases zipRead zin (relPathForSlide n) with
  | none => rfl
  | some b => exact findNotesRel_characterization (relParse b)

/-- Helper for C9: scanning past non-matching relationships, the loop
returns `None` as soon as the first matching relationship has a falsy
target. -/
theorem findNotesRel_first_bad (pre : List Relationship) (r : Relationship)
    (rest : List Relationship)
    (hpre : ∀ p ∈ pre, (p.typ == notesSlideRelType) = false)
    (hr : (r.typ == notesSlideRelType) = true)
    (htgt : r.target = none ∨ r.target = some "") :
    findNotesRel (pre ++ r :: rest) = none := by
  induction pre with
  | nil =>
    rw [List.nil_append, findNotesRel, if_pos hr]
    rcases htgt with h | h <;> rw [h]
    rfl
  | cons p ps ih =>
    rw [List.cons_append, findNotesRel, if_neg (by simp [hpre p (List.mem_cons_self p ps)])]
    exact ih fun q hq => hpre q (List.mem_cons_of_mem p hq)

/-- Claim C9: if the first notesSlide-typed relationship in the slide's
relationships part has a missing or empty `Target`, `_notes_part_for_slide`
returns `None` immediately, even when a later relationship of the same type
carries a valid target (`rest` is arbitrary). -/
theorem claim_C9 (relParse : List Nat → List Relationship) (zin : List ZipEntry)
    (n : Int) (b : List Nat) (pre rest : List Relationship) (r : Relationship)
    (hread : zipRead zin (relPathForSlide n) = some b)
    (hparse : relParse b = pre ++ r :: rest)
    (hpre : ∀ p ∈ pre, (p.typ == notesSlideRelType) = false)
    (hr : (r.typ == notesSlideRelType) = true)
    (htgt : r.target = none ∨ r.target = some "") :
    notes_part_for_slide_z relParse zin n = none := by
  unfold notes_part_for_slide_z
  rw [hread]
  show findNotesRel (relParse b) = none
  rw [hparse]
  exact findNotesRel_first_bad pre r rest hpre hr htgt

/-- C9 witness container: slide 1's relationships entry has payload `[9]`. -/
def c9zip : List ZipEntry :=
  [{ filename := "ppt/slides/_rels/slide1.xml.rels", data := [9], compress_type := 8,
     date_time := [2024, 1, 1, 0, 0, 0], ext_attr := 0, int_attr := 0,
     extra := [], comment := [], create_system := 0 }]

/-- C9 witness parse: a first notesSlide relationship with no `Target`,
followed by a second one with a valid target. -/
def c9parse (b : List Nat) : List Relationship :=
  if b == [9] then
    [{ typ := notesSlideRelType, target := none, targetMode := none },
     { typ := notesSlideRelType, target := some "../notesSlides/notesSlide2.xml",
       targetMode := none }]
  else []

/-- Witness for `claim_C9`: at the concrete container above, resolution
yields `None` despite the later valid relationship. -/
theorem claim_C9_witness : notes_part_for_slide_z c9parse c9zip 1 = none :=
  claim_C9 c9parse c9zip 1 [9] []
    [{ typ := notesSlideRelType, target := some "../notesSlides/notesSlide2.xml",
       targetMode := none }]
    { typ := notesSlideRelType, target := none, targetMode := none }
    rfl rfl (fun p hp => absurd hp (List.not_mem_nil p)) (by rfl) (Or.inl rfl)

/-! ## Claim C2: `update_notes_safe_in_place` commit mechanics

The filesystem is an association list from paths to byte contents with
Python-`dict`-style update.  `update_notes_safe_in_place` (lines 166-181)
is modelled step for step: `tempfile.mkstemp` creates the temp file,
`update_notes_safe` writes the new container bytes to it (abstracted as
`newBytes`, with `partialBytes` standing for whatever a failing write left
behind), `os.replace` renames it onto the target, and the `finally` block
unlinks the temp file when it still exists.  The two boolean flags inject a
failure into the write step or the rename step; the failure is re-raised
after the `finally` block (the function has no `except` clause). -/

/-- `os.path` read: contents of the file at `p`, if it exists. -/
def fsRead (fs : List (String × List Nat)) (p : String) : Option (List Nat) :=
  dictLookup fs p

/-- `unlink`: remove the file at `p`. -/
def fsDelete (fs : List (String × List Nat)) (p : String) : List (String × List Nat) :=
  fs.filter (fun kv => !(kv.1 == p))

/-- The body of `update_notes_safe_in_place` with failure injection.
Returns the final filesystem and `true` when the call returned normally
(`false` = the injected exception propagated to the caller). -/
def update_notes_safe_in_place_m (fs0 : List (String × List Nat)) (target tmp : String)
    (newBytes partialBytes : List Nat) (failAtWrite failAtReplace : Bool) :
    List (String × List Nat) × Bool :=
  let fs1 := dictInsert fs0 tmp []
  if failAtWrite then
    let fs2 := dictInsert fs1 tmp partialBytes
    (fsDelete fs2 tmp, false)
  else
    let fs2 := dictInsert fs1 tmp newBytes
    if failAtReplace then
      (fsDelete fs2 tmp, false)
    else
      (dictInsert (fsDelete fs2 tmp) target newBytes, true)

theorem dictLookup_insert {V : Type} (fs : List (String × V)) (k nm : String) (v : V) :
    dictLookup (dictInsert fs k v) nm = if k == nm then some v else dictLookup fs nm := by
  induction fs with
  | nil => rfl
  | cons hd rest ih =>
    obtain ⟨a, b⟩ := hd
    by_cases hak : a = k
    · subst hak
      by_cases h1 : a = nm <;> simp [dictInsert, dictLookup, h1]
    · have hdi : dictInsert ((a, b) :: rest) k v = (a, b) :: dictInsert rest k v := by
        simp [dictInsert, hak]
      rw [hdi]
      show (if a == nm then some b else dictLookup (dictInsert rest k v) nm) = _
      rw [ih]
      by_cases h1 : a = nm
      · subst h1
        have hka : (k == a) = false := by
          simp only [beq_eq_false_iff_ne, ne_eq]
          exact fun h => hak h.symm
        rw [if_pos (by simp), if_neg (by simp [hka])]
        show some b = (if a == a then some b else dictLookup rest a)
        rw [if_pos (by simp)]
      · have h1' : (a == nm) = false := by simp [h1]
        rw [if_neg (by simp [h1'])]
        by_cases h2 : k = nm
        · subst h2
          rw [if_pos (by simp), if_pos (by simp)]
        · have h2' : (k == nm) = false := by simp [h2]
          rw [if_neg (by simp [h2']), if_neg (by simp [h2'])]
          show dictLookup rest nm = (if a == nm then some b else dictLookup rest nm)
          rw [if_neg (by simp [h1'])]

theorem dictLookup_delete (fs : List (String × List Nat)) (p nm : String) :
    dictLookup (fsDelete fs p) nm =
      if p == nm then none else dictLookup fs nm := by
  induction fs with
  | nil => cases h : p == nm <;> simp [fsDelete, dictLookup, h]
  | cons hd rest ih =>
    obtain ⟨a, b⟩ := hd
    show dictLookup (List.filter _ ((a, b) :: rest)) nm = _
    rw [List.filter_cons]
    by_cases hap : a = p
    · subst hap
      simp only [beq_self_eq_true, Bool.not_true, Bool.false_eq_true, if_false]
      show dictLookup (fsDelete rest a) nm = _
      rw [ih]
      by_cases h1 : a = nm
      · subst h1
        rw [if_pos (by simp), if_pos (by simp)]
      · have h1' : (a == nm) = false := by simp [h1]
        rw [if_neg (by simp [h1']), if_neg (by simp [h1'])]
        show dictLookup rest nm = (if a == nm then some b else dictLookup rest nm)
        rw [if_neg (by simp [h1'])]
    · have hap' : (a == p) = false := by simp [hap]
      simp only [hap', Bool.not_false, if_true]
      show (if a == nm then some b else dictLookup (fsDelete rest p) nm) = _
      rw [ih]
      by_cases h1 : a = nm
      · subst h1
        have hpn : (p == a) = false := by
          simp only [beq_eq_false_iff_ne, ne_eq]
          exact fun h => hap h.symm
        rw [if_pos (by simp), if_neg (by simp [hpn])]
        show some b = (if a == a then some b else dictLookup rest a)
        rw [if_pos (by simp)]
      · have h1' : (a == nm) = false := by simp [h1]
        rw [if_neg (by simp [h1'])]
        by_cases h2 : p = nm
        · subst h2
          rw [if_pos (by simp), if_pos (by simp)]
        · have h2' : (p == nm) = false := by simp [h2]
          rw [if_neg (by simp [h2']), if_neg (by simp [h2'])]
          show dictLookup rest nm = (if a == nm then some b else dictLookup rest nm)
          rw [if_neg (by simp [h1'])]

/-- Claim C2: for the in-place commit, (a) if the container write or the
rename fails, the call propagates the error, the target path's content is
exactly what it was before the call, and the temp file no longer exists;
(b) if nothing fails, the target is replaced by the fully written new
container in the single rename step, and the temp file is gone.  (The
best-effort `unlink` of the `finally` block is modelled as succeeding.) -/
theorem claim_C2 (fs0 : List (String × List Nat)) (target tmp : String)
    (newBytes partialBytes : List Nat) (failAtWrite failAtReplace : Bool)
    (hne : tmp ≠ target) :
    ((failAtWrite = true ∨ failAtReplace = true) →
      (update_notes_safe_in_place_m fs0 target tmp newBytes partialBytes
          failAtWrite failAtReplace).2 = false ∧
      fsRead (update_notes_safe_in_place_m fs0 target tmp newBytes partialBytes
          failAtWrite failAtReplace).1 target = fsRead fs0 target ∧
      fsRead (update_notes_safe_in_place_m fs0 target tmp newBytes partialBytes
          failAtWrite failAtReplace).1 tmp = none) ∧
    (failAtWrite = false → failAtReplace = false →
      (update_notes_safe_in_place_m fs0 target tmp newBytes partialBytes
          failAtWrite failAtReplace).2 = true ∧
      fsRead (update_notes_safe_in_place_m fs0 target tmp newBytes partialBytes
          failAtWrite failAtReplace).1 target = some newBytes ∧
      fsRead (update_notes_safe_in_place_m fs0 target tmp newBytes partialBytes
          failAtWrite failAtReplace).1 tmp = none) := by
  have h1 : (tmp == target) = false := by simp [hne]
  have h2 : (target == tmp) = false := by simp [Ne.symm hne]
  cases failAtWrite with
  | true =>
    refine ⟨fun _ => ⟨rfl, ?_, ?_⟩, fun hw _ => by cases hw⟩
    · show fsRead (fsDelete (dictInsert (dictInsert fs0 tmp []) tmp partialBytes) tmp) target
        = fsRead fs0 target
      unfold fsRead
      rw [dictLookup_delete, dictLookup_insert, dictLookup_insert]
      simp [h1]
    · show fsRead (fsDelete (dictInsert (dictInsert fs0 tmp []) tmp partialBytes) tmp) tmp
        = none
      unfold fsRead
      rw [dictLookup_delete]
      simp
  | false =>
    cases failAtReplace with
    | true =>
      refine ⟨fun _ => ⟨rfl, ?_, ?_⟩, fun _ hr => by cases hr⟩
      · show fsRead (fsDelete (dictInsert (dictInsert fs0 tmp []) tmp newBytes) tmp) target
          = fsRead fs0 target
        unfold fsRead
        rw [dictLookup_delete, dictLookup_insert, dictLookup_insert]
        simp [h1]
      · show fsRead (fsDelete (dictInsert (dictInsert fs0 tmp []) tmp newBytes) tmp) tmp
          = none
        unfold fsRead
        rw [dictLookup_delete]
        simp
    | false =>
      refine ⟨fun hf => (by rcases hf with h | h <;> cases h), fun _ _ => ⟨rfl, ?_, ?_⟩⟩
      · show fsRead (dictInsert (fsDelete (dictInsert (dictInsert fs0 tmp []) tmp newBytes) tmp)
            target newBytes) target = some newBytes
        unfold fsRead
        rw [dictLookup_insert]
        simp
      · show fsRead (dictInsert (fsDelete (dictInsert (dictInsert fs0 tmp []) tmp newBytes) tmp)
            target newBytes) tmp = none
        unfold fsRead
        rw [dictLookup_insert, dictLookup_delete]
        simp [h2]

/-- Witness for `claim_C2`: a one-file filesystem, failure injected at the
rename step; the target keeps its original bytes and the temp file is gone. -/
theorem claim_C2_witness :
    (update_notes_safe_in_place_m [("deck.pptx", [1, 2, 3])] "deck.pptx"
        "deck.abc.tmp.pptx" [4, 5] [] false true).2 = false ∧
    fsRead (update_notes_safe_in_place_m [("deck.pptx", [1, 2, 3])] "deck.pptx"
        "deck.abc.tmp.pptx" [4, 5] [] false true).1 "deck.pptx"
      = fsRead [("deck.pptx", [1, 2, 3])] "deck.pptx" ∧
    fsRead (update_notes_safe_in_place_m [("deck.pptx", [1, 2, 3])] "deck.pptx"
        "deck.abc.tmp.pptx" [4, 5] [] false true).1 "deck.abc.tmp.pptx" = none :=
  (claim_C2 [("deck.pptx", [1, 2, 3])] "deck.pptx" "deck.abc.tmp.pptx" [4, 5] [] false true
    (by decide)).1 (Or.inr rfl)

/-! ## Batch validation and the batch tool handler (claims C3, C10)

`validate_batch_updates` (`validators.py` lines 379-421) and
`handle_update_notes_batch` (`notes_tools.py` lines 344-393).  The
embedding is typed, so the `isinstance` checks of the Python code are
vacuous; what remains is the empty-list check and the per-request
slide-number range check.  Raised exceptions are `Except.error` with the
exception's message.  The rewritten-bytes production of `_set_notes_text`
at byte level is abstracted as a function parameter `rew` (it is modelled
in full later on element trees); the commit step is not re-modelled here
(claim C2 covers it) — the handler model returns the rewritten container. -/

/-- One entry of the `updates` list: `{"slide_number": ..., "notes_text": ...}`. -/
structure UpdReq where
  slide_number : Int
  notes_text : String
deriving DecidableEq, Repr

/-- `validate_slide_number(slide_number, max_slides)`: raises
`InvalidSlideNumberError` unless `1 <= n <= max_slides`. -/
def validate_slide_number (n maxSlides : Int) : Except String Int :=
  if n < 1 ∨ n > maxSlides then Except.error "InvalidSlideNumberError" else Except.ok n

/-- The per-item loop of `validate_batch_updates`. -/
def validateLoop (maxSlides : Int) : List UpdReq → Except String (List UpdReq)
  | [] => Except.ok []
  | u :: rest =>
    match validate_slide_number u.slide_number maxSlides with
    | Except.error e => Except.error e
    | Except.ok _ =>
      match validateLoop maxSlides rest with
      | Except.error e => Except.error e
      | Except.ok v => Except.ok (u :: v)

/-- `validate_batch_updates(updates, max_slides)`: `if not updates: raise
ValueError("Updates list cannot be empty")`, then validate each request. -/
def validate_batch_updates (updates : List UpdReq) (maxSlides : Int) :
    Except String (List UpdReq) :=
  if updates = [] then Except.error "Updates list cannot be empty"
  else validateLoop maxSlides updates

/-- The map-building loop of `update_notes_safe` (lines 144-149): requests
whose slide resolves to `None` are skipped (`continue`); otherwise the
notes part is read (a missing entry raises `KeyError`) and the rewritten
bytes are stored in the dict under the part path (last write wins). -/
def buildNotesUpdates (relParse : List Nat → List Relationship)
    (rew : List Nat → String → List Nat) (zin : List ZipEntry) :
    List (Int × String) → List (String × List Nat) → Except String (List (String × List Nat))
  | [], acc => Except.ok acc
  | (n, txt) :: rest, acc =>
    match notes_part_for_slide_z relParse zin n with
    | none => buildNotesUpdates relParse rew zin rest acc
    | some part =>
      match zipRead zin part with
      | none => Except.error ("KeyError: " ++ part)
      | some b => buildNotesUpdates relParse rew zin rest (dictInsert acc part (rew b txt))

/-- `update_notes_safe` at container level: build the rewritten-parts map,
then stream the container through `rewriteContainer`. -/
def update_notes_safe_m (relParse : List Nat → List Relationship)
    (rew : List Nat → String → List Nat) (zin : List ZipEntry)
    (updates : List (Int × String)) : Except String (List ZipEntry) :=
  match buildNotesUpdates relParse rew zin updates [] with
  | Except.error e => Except.error e
  | Except.ok m => Except.ok (rewriteContainer zin m)

/-- Result dictionary of `handle_update_notes_batch`: either the success
dict (with its `updated_slides` count and `slides` list) or the
`success: False` dict produced by the `except` clause (with
`attempted_slides`). -/
inductive BatchRes where
  | succ (updated_slides : Nat) (slides : List Int)
  | failedDict (attempted_slides : Nat) (err : String)
deriving DecidableEq, Repr

/-- `handle_update_notes_batch`: validation errors propagate (the
validation call is outside the `try`), update errors are caught and turned
into the failure dict, and on success the handler reports
`updated_slides = len(validated_updates)`. -/
def handle_update_notes_batch_m (relParse : List Nat → List Relationship)
    (rew : List Nat → String → List Nat) (zin : List ZipEntry)
    (updates : List UpdReq) (maxSlides : Int) : Except String BatchRes :=
  match validate_batch_updates updates maxSlides with
  | Except.error e => Except.error e
  | Except.ok validated =>
    match update_notes_safe_m relParse rew zin
        (validated.map fun u => (u.slide_number, u.notes_text)) with
    | Except.error e => Except.ok (BatchRes.failedDict validated.length e)
    | Except.ok _ => Except.ok (BatchRes.succ validated.length
        (validated.map fun u => u.slide_number))

/-- The spec's notion of "applied count": the number of requests whose
slide resolves to a notes part (those are the ones actually rewritten). -/
def appliedCount (relParse : List Nat → List Relationship) (zin : List ZipEntry)
    (updates : List (Int × String)) : Nat :=
  (updates.filter (fun u => (notes_part_for_slide_z relParse zin u.1).isSome)).length

/-- C3 counterexample container: slides 1 and 3 have relationship entries
and notes parts; slide 2 has no relationships entry at all. -/
def c3zip : List ZipEntry :=
  [{ filename := "ppt/slides/_rels/slide1.xml.rels", data := [1], compress_type := 8,
     date_time := [2024, 1, 1, 0, 0, 0], ext_attr := 0, int_attr := 0,
     extra := [], comment := [], create_system := 0 },
   { filename := "ppt/slides/_rels/slide3.xml.rels", data := [3], compress_type := 8,
     date_time := [2024, 1, 1, 0, 0, 0], ext_attr := 0, int_attr := 0,
     extra := [], comment := [], create_system := 0 },
   { filename := "ppt/notesSlides/notesSlide1.xml", data := [101], compress_type := 8,
     date_time := [2024, 1, 1, 0, 0, 0], ext_attr := 0, int_attr := 0,
     extra := [], comment := [], create_system := 0 },
   { filename := "ppt/notesSlides/notesSlide3.xml", data := [103], compress_type := 8,
     date_time := [2024, 1, 1, 0, 0, 0], ext_attr := 0, int_attr := 0,
     extra := [], comment := [], create_system := 0 }]

/-- C3 counterexample relationship parse for `c3zip`. -/
def c3parse (b : List Nat) : List Relationship :=
  if b == [1] then
    [{ typ := notesSlideRelType, target := some "../notesSlides/notesSlide1.xml",
       targetMode := none }]
  else if b == [3] then
    [{ typ := notesSlideRelType, target := some "../notesSlides/notesSlide3.xml",
       targetMode := none }]
  else []

/-- C3 counterexample byte-level rewriter stand-in. -/
def c3rew (_ : List Nat) (_ : String) : List Nat := [42]

/-- Claim C3 (counterexample): for a validated batch of 3 requests where
request #2 targets a slide with no resolvable notes part, the handler
raises no error but reports `updated_slides = 3` — the number of validated
requests — not the actually-applied count 2 that the claim asserts. -/
theorem claim_C3_counterexample :
    handle_update_notes_batch_m c3parse c3rew c3zip
        [{ slide_number := 1, notes_text := "a" },
         { slide_number := 2, notes_text := "b" },
         { slide_number := 3, notes_text := "c" }] 3
      = Except.ok (BatchRes.succ 3 [1, 2, 3]) ∧
    appliedCount c3parse c3zip [(1, "a"), (2, "b"), (3, "c")] = 2 ∧
    (3 : Nat) ≠ 2 := by
  refine ⟨rfl, by decide, by decide⟩

/-- The map-building loop never raises when every resolvable request's
notes part is present in the container: unresolvable requests are skipped
by the `continue`, they do not raise. -/
theorem buildNotesUpdates_ok (relParse : List Nat → List Relationship)
    (rew : List Nat → String → List Nat) (zin : List ZipEntry) :
    ∀ (us : List (Int × String)) (acc : List (String × List Nat)),
      (∀ u ∈ us, ∀ p, notes_part_for_slide_z relParse zin u.1 = some p →
        (zipRead zin p).isSome = true) →
      ∃ m, buildNotesUpdates relParse rew zin us acc = Except.ok m := by
  intro us
  induction us with
  | nil => exact fun acc _ => ⟨acc, rfl⟩
  | cons u rest ih =>
    intro acc h
    obtain ⟨n, txt⟩ := u
    cases hr : notes_part_for_slide_z relParse zin n with
    | none =>
      simp only [buildNotesUpdates, hr]
      exact ih acc fun v hv => h v (List.mem_cons_of_mem _ hv)
    | some part =>
      have hp := h (n, txt) (List.mem_cons_self _ _) part hr
      cases hz : zipRead zin part with
      | none => rw [hz] at hp; cases hp
      | some b =>
        simp only [buildNotesUpdates, hr, hz]
        exact ih _ fun v hv => h v (List.mem_cons_of_mem _ hv)

/-- Claim C3 (amended): for every batch that passes validation and whose
resolvable requests point at existing notes parts, the handler succeeds
and reports `updated_slides = len(validated_updates)` — the number of
validated requests, including those that resolved to `None` and were
silently skipped without raising.  The actually-applied count of the claim
is NOT what is returned (see the counterexample). -/
theorem claim_C3 (relParse : List Nat → List Relationship)
    (rew : List Nat → String → List Nat) (zin : List ZipEntry)
    (updates validated : List UpdReq) (maxSlides : Int)
    (hval : validate_batch_updates updates maxSlides = Except.ok validated)
    (hres : ∀ u ∈ validated, ∀ p,
      notes_part_for_slide_z relParse zin u.slide_number = some p →
      (zipRead zin p).isSome = true) :
    handle_update_notes_batch_m relParse rew zin updates maxSlides
      = Except.ok (BatchRes.succ validated.length
          (validated.map fun (u : UpdReq) => u.slide_number)) := by
  have h' : ∀ v ∈ (validated.map fun (u : UpdReq) => (u.slide_number, u.notes_text)), ∀ p,
      notes_part_for_slide_z relParse zin v.1 = some p →
      (zipRead zin p).isSome = true := by
    intro v hv p hp
    obtain ⟨u, hu, rfl⟩ := List.mem_map.mp hv
    exact hres u hu p hp
  obtain ⟨m, hm⟩ := buildNotesUpdates_ok relParse rew zin
    (validated.map fun (u : UpdReq) => (u.slide_number, u.notes_text)) [] h'
  have hsafe : update_notes_safe_m relParse rew zin
      (validated.map fun (u : UpdReq) => (u.slide_number, u.notes_text))
      = Except.ok (rewriteContainer zin m) := by
    unfold update_notes_safe_m
    rw [hm]
  unfold handle_update_notes_batch_m
  rw [hval]
  show (match update_notes_safe_m relParse rew zin
      (validated.map fun (u : UpdReq) => (u.slide_number, u.notes_text)) with
    | Except.error e => Except.ok (BatchRes.failedDict validated.length e)
    | Except.ok _ => Except.ok (BatchRes.succ validated.length
        (validated.map fun (u : UpdReq) => u.slide_number))) = _
  rw [hsafe]

/-- Witness for `claim_C3` at the concrete 3-request batch of the
counterexample: validation passes, request #2 is unresolvable, and the
handler reports 3. -/
theorem claim_C3_witness :
    handle_update_notes_batch_m c3parse c3rew c3zip
        [{ slide_number := 1, notes_text := "a" },
         { slide_number := 2, notes_text := "b" },
         { slide_number := 3, notes_text := "c" }] 3
      = Except.ok (BatchRes.succ 3 [1, 2, 3]) :=
  claim_C3 c3parse c3rew c3zip
    [{ slide_number := 1, notes_text := "a" },
     { slide_number := 2, notes_text := "b" },
     { slide_number := 3, notes_text := "c" }]
    [{ slide_number := 1, notes_text := "a" },
     { slide_number := 2, notes_text := "b" },
     { slide_number := 3, notes_text := "c" }] 3
    rfl
    (by
      intro u hu p hp
      have hu' : u = { slide_number := 1, notes_text := "a" } ∨
          u = { slide_number := 2, notes_text := "b" } ∨
          u = { slide_number := 3, notes_text := "c" } := by simpa using hu
      rcases hu' with rfl | rfl | rfl
      · have hA : notes_part_for_slide_z c3parse c3zip (1 : Int)
            = some "ppt/notesSlides/notesSlide1.xml" := rfl
        have hps : p = "ppt/notesSlides/notesSlide1.xml" :=
          (Option.some.inj (hA.symm.trans hp)).symm
        subst hps
        rfl
      · have hA : notes_part_for_slide_z c3parse c3zip (2 : Int) = none := rfl
        exact absurd (hA.symm.trans hp) (by simp)
      · have hA : notes_part_for_slide_z c3parse c3zip (3 : Int)
            = some "ppt/notesSlides/notesSlide3.xml" := rfl
        have hps : p = "ppt/notesSlides/notesSlide3.xml" :=
          (Option.some.inj (hA.symm.trans hp)).symm
        subst hps
        rfl)

/-- Claim C10: an empty updates list is rejected by `validate_batch_updates`
with `ValueError("Updates list cannot be empty")` before any resolution,
rewrite or commit, and the handler propagates that error (the validation
call sits outside its `try`), so `update_notes_safe` is never reached and
no container is rewritten. -/
theorem claim_C10 (relParse : List Nat → List Relationship)
    (rew : List Nat → String → List Nat) (zin : List ZipEntry) (maxSlides : Int) :
    validate_batch_updates [] maxSlides = Except.error "Updates list cannot be empty" ∧
    handle_update_notes_batch_m relParse rew zin [] maxSlides
      = Except.error "Updates list cannot be empty" :=
  ⟨rfl, rfl⟩

/-! ## XML element trees and `_set_notes_text`

lxml element trees are modelled by `Elem`: namespaced tag, attributes
(keyed by namespace × local name; `""` for no namespace), the `.text`
before the first child, the ordered children, and the `.tail` after the
element.  `_set_notes_text` parses, transforms and re-serializes; parsing
and serialization are lxml's and are deterministic and faithful for these
trees, so the function is embedded as the tree transformation
`set_notes_text` (byte-level statements about the Python function
correspond to tree-level statements here). -/

inductive Elem where
  | mk (ns nm : String) (attrs : List ((String × String) × String))
       (etext : Option String) (children : List Elem) (tail : Option String)

def Elem.ns : Elem → String
  | .mk ns _ _ _ _ _ => ns

def Elem.nm : Elem → String
  | .mk _ nm _ _ _ _ => nm

def Elem.attrs : Elem → List ((String × String) × String)
  | .mk _ _ ats _ _ _ => ats

def Elem.etext : Elem → Option String
  | .mk _ _ _ tx _ _ => tx

def Elem.children : Elem → List Elem
  | .mk _ _ _ _ ch _ => ch

def Elem.tail : Elem → Option String
  | .mk _ _ _ _ _ tl => tl

/-- The `a` namespace (drawingml). -/
def aNS : String := "http://schemas.openxmlformats.org/drawingml/2006/main"

/-- The `p` namespace (presentationml). -/
def pNS : String := "http://schemas.openxmlformats.org/presentationml/2006/main"

/-- The `xml` namespace used for `xml:space`. -/
def xmlNS : String := "http://www.w3.org/XML/1998/namespace"

/-- `el.get(name)`: first (only) attribute with the given key. -/
def getAttr (e : Elem) (k : String × String) : Option String :=
  (e.attrs.find? (fun kv => kv.1 == k)).map (fun kv => kv.2)

/-- Does `e` have tag `{ns}nm`? -/
def isTag (ns nm : String) (e : Elem) : Bool :=
  e.ns == ns && e.nm == nm

/-- `p:ph[@type='body']`. -/
def isPhBody (e : Elem) : Bool :=
  isTag pNS "ph" e && (getAttr e ("", "type") == some "body")

/-- The predicate of the primary xpath
`//p:sp[p:nvSpPr/p:nvPr/p:ph[@type='body']]` on a single element. -/
def primarySp (e : Elem) : Bool :=
  isTag pNS "sp" e &&
    e.children.any (fun c1 => isTag pNS "nvSpPr" c1 &&
      c1.children.any (fun c2 => isTag pNS "nvPr" c2 &&
        c2.children.any isPhBody))

mutual
/-- Does the subtree rooted at `e` (including `e`) contain an `a:txBody`? -/
def containsATx : Elem → Bool
  | .mk ns nm _ _ ch _ => (ns == aNS && nm == "txBody") || containsATxL ch
def containsATxL : List Elem → Bool
  | [] => false
  | c :: cs => containsATx c || containsATxL cs
end

/-- The predicate of the fallback xpath `//p:sp[.//a:txBody]` on a single
element: a `p:sp` with an `a:txBody` among its strict descendants. -/
def fallbackSp (e : Elem) : Bool :=
  isTag pNS "sp" e && containsATxL e.children

mutual
/-- Path (list of child indices) of the first element in document
(pre-)order of the subtree rooted at `e`, itself included, satisfying `p`. -/
def findFirstPath (p : Elem → Bool) : Elem → Option (List Nat)
  | .mk ns nm ats tx ch tl =>
    if p (.mk ns nm ats tx ch tl) then some [] else
      match findFirstPathL p ch with
      | some (i, rest) => some (i :: rest)
      | none => none
/-- First match in document order over a forest, as (child index, path). -/
def findFirstPathL (p : Elem → Bool) : List Elem → Option (Nat × List Nat)
  | [] => none
  | c :: cs =>
    match findFirstPath p c with
    | some rest => some (0, rest)
    | none =>
      match findFirstPathL p cs with
      | some (i, rest) => some (i + 1, rest)
      | none => none
end

/-- Node of `e` at path `π`. -/
def getAt : Elem → List Nat → Option Elem
  | e, [] => some e
  | e, i :: π =>
    match e.children.get? i with
    | some c => getAt c π
    | none => none

/-- Replace the node of `e` at path `π` by `x` (identity on a dangling path). -/
def setAt : Elem → List Nat → Elem → Elem
  | _, [], x => x
  | e, i :: π, x =>
    match e.children.get? i with
    | some c => Elem.mk e.ns e.nm e.attrs e.etext (e.children.set i (setAt c π x)) e.tail
    | none => e

/-! Text normalization (`_set_notes_text` lines 75-82). -/

/-- `notes_text.replace("\r\n", "\n").replace("\r", "\n")`. -/
def pyNormNewlines (s : String) : String :=
  pyReplace (pyReplace s "\r\n" "\n") "\r" "\n"

/-- The character class of `re.sub(r'[\x00-\x08\x0b-\x0c\x0e-\x1f]', '\n', ...)`. -/
def isCtlSub (c : Char) : Bool :=
  (c.toNat ≤ 8) || (c.toNat == 11) || (c.toNat == 12) ||
    (14 ≤ c.toNat && c.toNat ≤ 31)

/-- The `re.sub` call: each matched character becomes a line feed. -/
def reSubCtl (s : String) : String :=
  String.mk (s.data.map (fun c => if isCtlSub c then '\n' else c))

/-- Python `s.split("\n")` (an empty string yields `[""]`). -/
def splitLF : List Char → List (List Char)
  | [] => [[]]
  | c :: cs =>
    if c == '\n' then [] :: splitLF cs
    else
      match splitLF cs with
      | [] => [[c]]
      | l :: ls => (c :: l) :: ls

def pySplitLF (s : String) : List String :=
  (splitLF s.data).map String.mk

/-- `cleaned_text.split("\n")` plus the (dead) `if len(lines) == 0` guard. -/
def linesOf (notes_text : String) : List String :=
  let cleaned := reSubCtl (pyNormNewlines notes_text)
  let lines := pySplitLF cleaned
  if lines.length == 0 then [""] else lines

/-- Python's whitespace class as stripped by `str.strip()`. -/
def isPySpace (c : Char) : Bool :=
  c == ' ' || c == '\t' || c == '\n' || c == '\r' || c.toNat == 11 || c.toNat == 12 ||
    (28 ≤ c.toNat && c.toNat ≤ 31) || c.toNat == 133 || c.toNat == 160 ||
    c.toNat == 5760 || (8192 ≤ c.toNat && c.toNat ≤ 8202) || c.toNat == 8232 ||
    c.toNat == 8233 || c.toNat == 8239 || c.toNat == 8287 || c.toNat == 12288

/-- Python `line.strip()`. -/
def pyStrip (s : String) : String :=
  String.mk (((s.data.dropWhile isPySpace).reverse.dropWhile isPySpace).reverse)

/-- `is_bold` (lines 89-90): the stripped line starts with one of the two
marker prefixes. -/
def isBoldLine (line : String) : Bool :=
  pyStartsWith (pyStrip line) "- Short version:" ||
    pyStartsWith (pyStrip line) "- Original:"

/-- `clean_line` (line 98): keep characters with code point ≥ 32 plus
newline, carriage return and tab. -/
def cleanLine (line : String) : String :=
  String.mk (line.data.filter (fun c => 32 ≤ c.toNat || c == '\n' || c == '\r' || c == '\t'))

/-- The `a:r` run built for one line (lines 86-99): an optional bold
`a:rPr`, then the `a:t` with `xml:space="preserve"` and the cleaned text. -/
def mkRun (line : String) : Elem :=
  let tEl : Elem := Elem.mk aNS "t" [((xmlNS, "space"), "preserve")]
    (some (cleanLine line)) [] none
  if isBoldLine line then
    Elem.mk aNS "r" [] none [Elem.mk aNS "rPr" [(("", "b"), "1")] none [] none, tEl] none
  else
    Elem.mk aNS "r" [] none [tEl] none

/-- The `a:p` paragraph built for one line (line 85): a single run. -/
def mkParagraph (line : String) : Elem :=
  Elem.mk aNS "p" [] none [mkRun line] none

/-- Lines 71-100 applied to the located text body: remove every direct
`a:p` child (keeping `a:bodyPr`, `a:lstStyle`, ... in place) and append one
new paragraph per line. -/
def rewriteTxBody (notes_text : String) (tx : Elem) : Elem :=
  Elem.mk tx.ns tx.nm tx.attrs tx.etext
    (tx.children.filter (fun c => !(isTag aNS "p" c)) ++ (linesOf notes_text).map mkParagraph)
    tx.tail

/-- Lines 53-61: the first `p:sp` with a body placeholder, else the first
`p:sp` containing an `a:txBody`. -/
def findSpPath (root : Elem) : Option (List Nat) :=
  match findFirstPath primarySp root with
  | some π => some π
  | none => findFirstPath fallbackSp root

/-- Lines 63-67: within the shape, the first `p:txBody` descendant, else
the first `a:txBody` descendant. -/
def findTxPathIn (sp : Elem) : Option (Nat × List Nat) :=
  match findFirstPathL (isTag pNS "txBody") sp.children with
  | some r => some r
  | none => findFirstPathL (isTag aNS "txBody") sp.children

/-- The combined target location of `_set_notes_text`: the path (from the
root) of the text body to rewrite, and that text body. -/
def findNotesTarget (root : Elem) : Option (List Nat × Elem) :=
  match findSpPath root with
  | none => none
  | some spPath =>
    match getAt root spPath with
    | none => none
    | some sp =>
      match findTxPathIn sp with
      | none => none
      | some (i, rest) =>
        match getAt sp (i :: rest) with
        | none => none
        | some tx => some (spPath ++ i :: rest, tx)

/-- `_set_notes_text` as a tree transformation: locate the text body per
lines 53-69 (returning the input unchanged when there is none) and rewrite
it in place per lines 71-100. -/
def set_notes_text (root : Elem) (notes_text : String) : Elem :=
  match findNotesTarget root with
  | none => root
  | some (π, tx) => setAt root π (rewriteTxBody notes_text tx)

/-! Path lemmas. -/

theorem getAt_append (π τ : List Nat) : ∀ (e : Elem),
    getAt e (π ++ τ) = (getAt e π).bind (fun n => getAt n τ) := by
  induction π with
  | nil => intro e; rfl
  | cons i π ih =>
    intro e
    cases hg : e.children.get? i with
    | some c =>
      have l1 : getAt e ((i :: π) ++ τ) = getAt c (π ++ τ) := by
        show (match e.children.get? i with
          | some c => getAt c (π ++ τ)
          | none => none) = _
        rw [hg]
      have l2 : getAt e (i :: π) = getAt c π := by
        show (match e.children.get? i with
          | some c => getAt c π
          | none => none) = _
        rw [hg]
      rw [l1, l2, ih c]
    | none =>
      have l1 : getAt e ((i :: π) ++ τ) = none := by
        show (match e.children.get? i with
          | some c => getAt c (π ++ τ)
          | none => none) = _
        rw [hg]
      have l2 : getAt e (i :: π) = none := by
        show (match e.children.get? i with
          | some c => getAt c π
          | none => none) = _
        rw [hg]
      rw [l1, l2]
      rfl

theorem list_get?_set_self {α : Type} : ∀ (l : List α) (i : Nat) (a c : α),
    l.get? i = some c → (l.set i a).get? i = some a := by
  intro l
  induction l with
  | nil => intro i a c h; cases i <;> cases h
  | cons hd tl ih =>
    intro i a c h
    cases i with
    | zero => rfl
    | succ j => exact ih j a c h

theorem getAt_setAt : ∀ (π : List Nat) (e t x : Elem),
    getAt e π = some t → getAt (setAt e π x) π = some x := by
  intro π
  induction π with
  | nil => intro e t x _; rfl
  | cons i π ih =>
    intro e t x h
    have h' : (match e.children.get? i with
      | some c => getAt c π
      | none => none) = some t := h
    cases hg : e.children.get? i with
    | none => rw [hg] at h'; cases h'
    | some c =>
      rw [hg] at h'
      show getAt (match e.children.get? i with
        | some c => Elem.mk e.ns e.nm e.attrs e.etext (e.children.set i (setAt c π x)) e.tail
        | none => e) (i :: π) = some x
      rw [hg]
      show (match (e.children.set i (setAt c π x)).get? i with
        | some c' => getAt c' π
        | none => none) = some x
      rw [list_get?_set_self e.children i (setAt c π x) c hg]
      exact ih c t x h'

/-- A located notes target really sits at the returned path. -/
theorem findNotesTarget_getAt (root : Elem) (π : List Nat) (tx : Elem)
    (h : findNotesTarget root = some (π, tx)) : getAt root π = some tx := by
  unfold findNotesTarget at h
  cases hsp : findSpPath root with
  | none =>
    simp only [hsp] at h
    exact Option.noConfusion h
  | some spPath =>
    simp only [hsp] at h
    cases hget : getAt root spPath with
    | none =>
      simp only [hget] at h
      exact Option.noConfusion h
    | some sp =>
      simp only [hget] at h
      cases htx : findTxPathIn sp with
      | none =>
        simp only [htx] at h
        exact Option.noConfusion h
      | some ir =>
        obtain ⟨i, rest⟩ := ir
        simp only [htx] at h
        cases hgt : getAt sp (i :: rest) with
        | none =>
          simp only [hgt] at h
          exact Option.noConfusion h
        | some tx' =>
          simp only [hgt, Option.some.injEq, Prod.mk.injEq] at h
          obtain ⟨h1, h2⟩ := h
          subst h1
          subst h2
          rw [getAt_append, hget]
          exact hgt

/-- Every built paragraph is an `a:p`. -/
theorem mkParagraph_isAP (l : String) : isTag aNS "p" (mkParagraph l) = true := rfl

/-- The paragraphs of the rewritten text body are exactly the newly built
ones, one per line, in order: the kept siblings are not `a:p` and every new
child is. -/
theorem rewriteTxBody_paragraphs (T : String) (tx : Elem) :
    (rewriteTxBody T tx).children.filter (isTag aNS "p")
      = (linesOf T).map mkParagraph := by
  show ((tx.children.filter (fun c => !(isTag aNS "p" c))
      ++ (linesOf T).map mkParagraph).filter (isTag aNS "p")) = _
  rw [List.filter_append]
  have h1 : (tx.children.filter (fun c => !(isTag aNS "p" c))).filter (isTag aNS "p") = [] := by
    rw [List.filter_filter]
    have : ∀ c ∈ tx.children, ¬(isTag aNS "p" c && !(isTag aNS "p" c)) = true := by
      intro c _
      cases isTag aNS "p" c <;> decide
    rw [List.filter_eq_nil_iff.mpr this]
  have h2 : ((linesOf T).map mkParagraph).filter (isTag aNS "p")
      = (linesOf T).map mkParagraph := by
    apply List.filter_eq_self.mpr
    intro a ha
    obtain ⟨l, _, rfl⟩ := List.mem_map.mp ha
    exact mkParagraph_isAP l
  rw [h1, h2, List.nil_append]

/-! ## Claims C5 and C6: paragraph and bold-run structure -/

/-- Claim C5: when the notes part has a recognized text body, `_set_notes_text`
replaces it with one whose `a:p` children are exactly one paragraph per line
of the normalized text, in input order, each holding the single built run;
`"a\nb\nc"` normalizes to the three lines `a, b, c` (whose runs carry those
texts in order) and `""` to exactly one empty line whose run carries the
empty text — never zero paragraphs. -/
theorem claim_C5 (root : Elem) (T : String) (π : List Nat) (tx : Elem)
    (h : findNotesTarget root = some (π, tx)) :
    getAt (set_notes_text root T) π = some (rewriteTxBody T tx) ∧
    (rewriteTxBody T tx).children.filter (isTag aNS "p")
      = (linesOf T).map mkParagraph ∧
    (∀ l, (mkParagraph l).children = [mkRun l]) ∧
    linesOf "a\nb\nc" = ["a", "b", "c"] ∧
    (linesOf "a\nb\nc").map (fun l => (mkRun l).children.map Elem.etext)
      = [[some "a"], [some "b"], [some "c"]] ∧
    linesOf "" = [""] ∧
    (mkRun "").children.map Elem.etext = [some ""] := by
  refine ⟨?_, rewriteTxBody_paragraphs T tx, fun l => rfl, rfl, rfl, rfl, rfl⟩
  unfold set_notes_text
  rw [h]
  exact getAt_setAt π root tx (rewriteTxBody T tx) (findNotesTarget_getAt root π tx h)

/-- Does the run carry bold formatting (`a:rPr` child with `b="1"`)? -/
def hasBoldRPr (r : Elem) : Bool :=
  r.children.any (fun c => isTag aNS "rPr" c && (getAttr c ("", "b") == some "1"))

/-- Claim C6: a rewritten run is bold exactly when the Python-stripped line
starts with `"- Short version:"` or `"- Original:"`; together with C5's
paragraph structure this covers every emitted run. -/
theorem claim_C6 (root : Elem) (T : String) (π : List Nat) (tx : Elem)
    (h : findNotesTarget root = some (π, tx)) :
    getAt (set_notes_text root T) π = some (rewriteTxBody T tx) ∧
    (rewriteTxBody T tx).children.filter (isTag aNS "p")
      = (linesOf T).map mkParagraph ∧
    (∀ l, (mkParagraph l).children = [mkRun l]) ∧
    (∀ l, hasBoldRPr (mkRun l)
      = (pyStartsWith (pyStrip l) "- Short version:"
          || pyStartsWith (pyStrip l) "- Original:")) := by
  refine ⟨?_, rewriteTxBody_paragraphs T tx, fun l => rfl, fun l => ?_⟩
  · unfold set_notes_text
    rw [h]
    exact getAt_setAt π root tx (rewriteTxBody T tx) (findNotesTarget_getAt root π tx h)
  · show hasBoldRPr (mkRun l) = isBoldLine l
    unfold mkRun
    cases hb : isBoldLine l with
    | true =>
      rw [if_pos rfl]
      rfl
    | false =>
      rw [if_neg (by simp)]
      rfl

/-- A concrete well-formed notes text body: `a:bodyPr` followed by one
existing paragraph. -/
def cTxBody : Elem :=
  Elem.mk pNS "txBody" [] none
    [Elem.mk aNS "bodyPr" [] none [] none,
     Elem.mk aNS "p" [] none
       [Elem.mk aNS "r" [] none
         [Elem.mk aNS "t" [] (some "Original Note") [] none] none] none] none

/-- A concrete notes part: `p:notes / p:cSld / p:spTree / p:sp` with a body
placeholder and the text body `cTxBody`. -/
def cNotesRoot : Elem :=
  Elem.mk pNS "notes" [] none
    [Elem.mk pNS "cSld" [] none
      [Elem.mk pNS "spTree" [] none
        [Elem.mk pNS "sp" [] none
          [Elem.mk pNS "nvSpPr" [] none
            [Elem.mk pNS "nvPr" [] none
              [Elem.mk pNS "ph" [(("", "type"), "body")] none [] none] none] none,
           Elem.mk pNS "txBody" [] none
             [Elem.mk aNS "bodyPr" [] none [] none,
              Elem.mk aNS "p" [] none
                [Elem.mk aNS "r" [] none
                  [Elem.mk aNS "t" [] (some "Original Note") [] none] none] none] none]
          none] none] none] none

/-- Witness for `claim_C5` at the concrete notes part and text `"a\nb\nc"`. -/
theorem claim_C5_witness :
    findNotesTarget cNotesRoot = some ([0, 0, 0, 1], cTxBody) ∧
    (getAt (set_notes_text cNotesRoot "a\nb\nc") [0, 0, 0, 1]
        = some (rewriteTxBody "a\nb\nc" cTxBody) ∧
      (rewriteTxBody "a\nb\nc" cTxBody).children.filter (isTag aNS "p")
        = (linesOf "a\nb\nc").map mkParagraph ∧
      (∀ l, (mkParagraph l).children = [mkRun l]) ∧
      linesOf "a\nb\nc" = ["a", "b", "c"] ∧
      (linesOf "a\nb\nc").map (fun l => (mkRun l).children.map Elem.etext)
        = [[some "a"], [some "b"], [some "c"]] ∧
      linesOf "" = [""] ∧
      (mkRun "").children.map Elem.etext = [some ""]) :=
  ⟨rfl, claim_C5 cNotesRoot "a\nb\nc" [0, 0, 0, 1] cTxBody rfl⟩

/-- Witness for `claim_C6` at the concrete notes part and a two-line text
with one marker line. -/
theorem claim_C6_witness :
    findNotesTarget cNotesRoot = some ([0, 0, 0, 1], cTxBody) ∧
    (getAt (set_notes_text cNotesRoot "- Original: x\nplain") [0, 0, 0, 1]
        = some (rewriteTxBody "- Original: x\nplain" cTxBody) ∧
      (rewriteTxBody "- Original: x\nplain" cTxBody).children.filter (isTag aNS "p")
        = (linesOf "- Original: x\nplain").map mkParagraph ∧
      (∀ l, (mkParagraph l).children = [mkRun l]) ∧
      (∀ l, hasBoldRPr (mkRun l)
        = (pyStartsWith (pyStrip l) "- Short version:"
            || pyStartsWith (pyStrip l) "- Original:"))) ∧
    hasBoldRPr (mkRun "- Original: x") = true ∧
    hasBoldRPr (mkRun "plain") = false :=
  ⟨rfl, claim_C6 cNotesRoot "- Original: x\nplain" [0, 0, 0, 1] cTxBody rfl,
    by decide, by decide⟩

/-! ## Claim C8: body placeholder without a text body is a no-op -/

/-- Claim C8: when the first body-placeholder shape exists but contains no
`p:txBody` or `a:txBody`, `_set_notes_text` returns its input unchanged; it
does not fall back to another shape (the fallback xpath runs only when no
body-placeholder shape exists at all, and here the primary search
succeeded). -/
theorem claim_C8 (root : Elem) (T : String) (π : List Nat) (sp : Elem)
    (h1 : findFirstPath primarySp root = some π)
    (h2 : getAt root π = some sp)
    (h3 : findTxPathIn sp = none) :
    set_notes_text root T = root ∧ findNotesTarget root = none := by
  have hft : findNotesTarget root = none := by
    unfold findNotesTarget findSpPath
    simp only [h1, h2, h3]
  refine ⟨?_, hft⟩
  unfold set_notes_text
  rw [hft]

/-- The body-placeholder shape of `c8root`: no text body inside. -/
def c8sp1 : Elem :=
  Elem.mk pNS "sp" [] none
    [Elem.mk pNS "nvSpPr" [] none
      [Elem.mk pNS "nvPr" [] none
        [Elem.mk pNS "ph" [(("", "type"), "body")] none [] none] none] none] none

/-- C8 witness root: a body-placeholder shape without any text body,
followed by another shape that does contain an `a:txBody`. -/
def c8root : Elem :=
  Elem.mk pNS "notes" [] none
    [c8sp1,
     Elem.mk pNS "sp" [] none
       [Elem.mk aNS "txBody" [] none
         [Elem.mk aNS "p" [] none
           [Elem.mk aNS "r" [] none
             [Elem.mk aNS "t" [] (some "other") [] none] none] none] none] none] none

/-- Witness for `claim_C8`: the primary search finds the empty placeholder
shape, the fallback xpath would have found the second shape, and the
rewrite is a no-op. -/
theorem claim_C8_witness :
    findFirstPath primarySp c8root = some [0] ∧
    getAt c8root [0] = some c8sp1 ∧
    findTxPathIn c8sp1 = none ∧
    findFirstPath fallbackSp c8root = some [1] ∧
    (set_notes_text c8root "ignored" = c8root ∧ findNotesTarget c8root = none) :=
  ⟨rfl, rfl, rfl, rfl, claim_C8 c8root "ignored" [0] c8sp1 rfl rfl rfl⟩

/-! ## Claim C7: determinism and idempotence of `_set_notes_text`

Idempotence fails in general: when the shape is located through the
fallback xpath `//p:sp[.//a:txBody]` and the only `a:txBody` witnessing the
predicate sits inside a paragraph that the rewrite removes, the second run
resolves a *different* shape and rewrites it.  `c7root` below exhibits
this. -/

/-- C7 counterexample root: the first shape's `p:txBody` holds a paragraph
containing a nested `a:txBody` (which makes the fallback xpath choose that
shape); the second shape holds a real `a:txBody` with text `old`. -/
def c7root : Elem :=
  Elem.mk pNS "notes" [] none
    [Elem.mk pNS "sp" [] none
      [Elem.mk pNS "txBody" [] none
        [Elem.mk aNS "p" [] none
          [Elem.mk aNS "txBody" [] none [] none] none] none] none,
     Elem.mk pNS "sp" [] none
       [Elem.mk aNS "txBody" [] none
         [Elem.mk aNS "p" [] none
           [Elem.mk aNS "r" [] none
             [Elem.mk aNS "t" [] (some "old") [] none] none] none] none] none] none

/-- Claim C7 (counterexample): `_set_notes_text` is not idempotent.  On
`c7root` with text `"x"`, the first run rewrites the first shape's
`p:txBody` (removing the nested `a:txBody`), so the second run's fallback
xpath selects the second shape and rewrites its `a:txBody`: the run text at
the second shape changes from `old` to `x` between the two outputs. -/
theorem claim_C7_counterexample :
    ((getAt (set_notes_text (set_notes_text c7root "x") "x") [1, 0, 0, 0, 0]).bind Elem.etext
      = some "x") ∧
    ((getAt (set_notes_text c7root "x") [1, 0, 0, 0, 0]).bind Elem.etext = some "old") ∧
    set_notes_text (set_notes_text c7root "x") "x" ≠ set_notes_text c7root "x" := by
  refine ⟨rfl, rfl, ?_⟩
  intro he
  have h2 := congrArg (fun e => (getAt e [1, 0, 0, 0, 0]).bind Elem.etext) he
  exact absurd h2 (by decide)

/-! Decomposition lemmas for the document-order search. -/

theorem find_build_nil (p : Elem → Bool) (e : Elem) (h : p e = true) :
    findFirstPath p e = some [] := by
  cases e with
  | mk ns nm ats tx ch tl =>
    unfold findFirstPath
    rw [if_pos h]

theorem find_sound_nil (p : Elem → Bool) (e : Elem)
    (h : findFirstPath p e = some []) : p e = true := by
  cases e with
  | mk ns nm ats tx ch tl =>
    unfold findFirstPath at h
    cases hp : p (Elem.mk ns nm ats tx ch tl) with
    | true => rfl
    | false =>
      rw [if_neg (by simp [hp])] at h
      cases hfl : findFirstPathL p ch with
      | some ir =>
        obtain ⟨j, ρ⟩ := ir
        simp only [hfl] at h
        simp at h
      | none =>
        simp only [hfl] at h
        exact Option.noConfusion h

theorem find_decomp_cons (p : Elem → Bool) (e : Elem) (j : Nat) (ρ : List Nat)
    (h : findFirstPath p e = some (j :: ρ)) :
    p e = false ∧ findFirstPathL p e.children = some (j, ρ) := by
  cases e with
  | mk ns nm ats tx ch tl =>
    unfold findFirstPath at h
    cases hp : p (Elem.mk ns nm ats tx ch tl) with
    | true =>
      rw [if_pos hp] at h
      simp at h
    | false =>
      rw [if_neg (by simp [hp])] at h
      refine ⟨rfl, ?_⟩
      cases hfl : findFirstPathL p ch with
      | some ir =>
        obtain ⟨j', ρ'⟩ := ir
        simp only [hfl, Option.some.injEq, List.cons.injEq] at h
        show findFirstPathL p ch = some (j, ρ)
        rw [hfl, h.1, h.2]
      | none =>
        simp only [hfl] at h
        exact Option.noConfusion h

theorem find_build_cons (p : Elem → Bool) (e : Elem) (j : Nat) (ρ : List Nat)
    (hp : p e = false) (hfl : findFirstPathL p e.children = some (j, ρ)) :
    findFirstPath p e = some (j :: ρ) := by
  cases e with
  | mk ns nm ats tx ch tl =>
    unfold findFirstPath
    rw [if_neg (by simp [show p (Elem.mk ns nm ats tx ch tl) = false from hp])]
    show (match findFirstPathL p ch with
      | some (i, rest) => some (i :: rest)
      | none => none) = _
    rw [show findFirstPathL p ch = some (j, ρ) from hfl]

theorem find_none_decomp (p : Elem → Bool) (e : Elem)
    (h : findFirstPath p e = none) :
    p e = false ∧ findFirstPathL p e.children = none := by
  cases e with
  | mk ns nm ats tx ch tl =>
    unfold findFirstPath at h
    cases hp : p (Elem.mk ns nm ats tx ch tl) with
    | true => rw [if_pos hp] at h; cases h
    | false =>
      rw [if_neg (by simp [hp])] at h
      refine ⟨rfl, ?_⟩
      cases hfl : findFirstPathL p ch with
      | some ir =>
        obtain ⟨j', ρ'⟩ := ir
        simp only [hfl] at h
        exact Option.noConfusion h
      | none => exact hfl

theorem find_none_build (p : Elem → Bool) (e : Elem)
    (hp : p e = false) (hfl : findFirstPathL p e.children = none) :
    findFirstPath p e = none := by
  cases e with
  | mk ns nm ats tx ch tl =>
    unfold findFirstPath
    rw [if_neg (by simp [show p (Elem.mk ns nm ats tx ch tl) = false from hp])]
    show (match findFirstPathL p ch with
      | some (i, rest) => some (i :: rest)
      | none => none) = _
    rw [show findFirstPathL p ch = none from hfl]

theorem findL_decomp (p : Elem → Bool) : ∀ (l : List Elem) (j : Nat) (ρ : List Nat),
    findFirstPathL p l = some (j, ρ) →
    ∃ c, l.get? j = some c ∧ findFirstPath p c = some ρ ∧
      ∀ k, k < j → ∀ d, l.get? k = some d → findFirstPath p d = none := by
  intro l
  induction l with
  | nil => intro j ρ h; cases h
  | cons c cs ih =>
    intro j ρ h
    unfold findFirstPathL at h
    cases hc : findFirstPath p c with
    | some ρ' =>
      simp only [hc, Option.some.injEq, Prod.mk.injEq] at h
      obtain ⟨h1, h2⟩ := h
      subst h1
      subst h2
      exact ⟨c, rfl, hc, fun k hk d => absurd hk (Nat.not_lt_zero k)⟩
    | none =>
      simp only [hc] at h
      cases hcs : findFirstPathL p cs with
      | some ir =>
        obtain ⟨i, rest⟩ := ir
        simp only [hcs, Option.some.injEq, Prod.mk.injEq] at h
        obtain ⟨h1, h2⟩ := h
        subst h2
        obtain ⟨d, hd1, hd2, hd3⟩ := ih i rest hcs
        refine ⟨d, ?_, hd2, ?_⟩
        · rw [← h1]
          exact hd1
        · intro k hk e' he'
          cases k with
          | zero =>
            have : e' = c := by
              injection he' with h'
              exact h'.symm
            rw [this]
            exact hc
          | succ k' =>
            apply hd3 k'
            · omega
            · exact he'
      | none =>
        simp only [hcs] at h
        exact Option.noConfusion h

theorem findL_build (p : Elem → Bool) : ∀ (l : List Elem) (j : Nat) (ρ : List Nat) (c : Elem),
    l.get? j = some c → findFirstPath p c = some ρ →
    (∀ k, k < j → ∀ d, l.get? k = some d → findFirstPath p d = none) →
    findFirstPathL p l = some (j, ρ) := by
  intro l
  induction l with
  | nil => intro j ρ c hg; cases j <;> cases hg
  | cons c0 cs ih =>
    intro j ρ c hg hf hnone
    unfold findFirstPathL
    cases j with
    | zero =>
      have hcc : c0 = c := Option.some.inj hg
      subst hcc
      rw [hf]
    | succ j' =>
      have h0 : findFirstPath p c0 = none :=
        hnone 0 (Nat.succ_pos j') c0 rfl
      rw [h0]
      have : findFirstPathL p cs = some (j', ρ) := by
        apply ih j' ρ c hg hf
        intro k hk d hd
        exact hnone (k + 1) (by omega) d hd
      rw [this]

theorem findL_none_forall (p : Elem → Bool) : ∀ (l : List Elem),
    findFirstPathL p l = none → ∀ c ∈ l, findFirstPath p c = none := by
  intro l
  induction l with
  | nil => intro _ c hc; cases hc
  | cons c0 cs ih =>
    intro h c hc
    unfold findFirstPathL at h
    cases hc0 : findFirstPath p c0 with
    | some ρ =>
      simp only [hc0] at h
      exact Option.noConfusion h
    | none =>
      simp only [hc0] at h
      cases hcs : findFirstPathL p cs with
      | some ir =>
        obtain ⟨i, rest⟩ := ir
        simp only [hcs] at h
        exact Option.noConfusion h
      | none =>
        rcases List.mem_cons.mp hc with rfl | hmem
        · exact hc0
        · exact ih hcs c hmem

theorem findL_none_of_forall (p : Elem → Bool) : ∀ (l : List Elem),
    (∀ c ∈ l, findFirstPath p c = none) → findFirstPathL p l = none := by
  intro l
  induction l with
  | nil => intro _; rfl
  | cons c0 cs ih =>
    intro h
    unfold findFirstPathL
    rw [h c0 (List.mem_cons_self c0 cs), ih (fun c hc => h c (List.mem_cons_of_mem c0 hc))]

/-! Soundness of the search and interaction of `setAt` with paths. -/

theorem find_sound (p : Elem → Bool) : ∀ (π : List Nat) (e : Elem),
    findFirstPath p e = some π → ∃ n, getAt e π = some n ∧ p n = true := by
  intro π
  induction π with
  | nil => exact fun e h => ⟨e, rfl, find_sound_nil p e h⟩
  | cons j π' ih =>
    intro e h
    obtain ⟨-, hfl⟩ := find_decomp_cons p e j π' h
    obtain ⟨c, hg, hf, -⟩ := findL_decomp p e.children j π' hfl
    obtain ⟨n, hn1, hn2⟩ := ih c hf
    refine ⟨n, ?_, hn2⟩
    show (match e.children.get? j with
      | some c => getAt c π'
      | none => none) = some n
    rw [hg]
    exact hn1

theorem find_none_getAt (p : Elem → Bool) : ∀ (ρ : List Nat) (e t : Elem),
    getAt e ρ = some t → findFirstPath p e = none → findFirstPath p t = none := by
  intro ρ
  induction ρ with
  | nil =>
    intro e t hg hn
    have : e = t := Option.some.inj hg
    exact this ▸ hn
  | cons i ρ' ih =>
    intro e t hg hn
    have hg' : (match e.children.get? i with
      | some c => getAt c ρ'
      | none => none) = some t := hg
    cases hge : e.children.get? i with
    | none => rw [hge] at hg'; cases hg'
    | some c =>
      rw [hge] at hg'
      obtain ⟨-, hfl⟩ := find_none_decomp p e hn
      have hc : findFirstPath p c = none :=
        findL_none_forall p e.children hfl c (List.get?_mem hge)
      exact ih c t hg' hc

theorem list_get?_set_ne {α : Type} : ∀ (l : List α) (i j : Nat) (a : α),
    i ≠ j → (l.set i a).get? j = l.get? j := by
  intro l
  induction l with
  | nil => intro i j a _; cases i <;> rfl
  | cons hd tl ih =>
    intro i j a hne
    cases i with
    | zero =>
      cases j with
      | zero => exact absurd rfl hne
      | succ j' => rfl
    | succ i' =>
      cases j with
      | zero => rfl
      | succ j' => exact ih i' j' a (fun h => hne (by rw [h]))

theorem list_any_set {α : Type} (pp : α → Bool) : ∀ (l : List α) (j : Nat) (c c' : α),
    l.get? j = some c → pp c' = pp c → (l.set j c').any pp = l.any pp := by
  intro l
  induction l with
  | nil => intro j c c' hg; cases j <;> cases hg
  | cons hd tl ih =>
    intro j c c' hg hpp
    cases j with
    | zero =>
      have : hd = c := Option.some.inj hg
      subst this
      show (pp c' || tl.any pp) = (pp hd || tl.any pp)
      rw [hpp]
    | succ j' =>
      show (pp hd || (tl.set j' c').any pp) = (pp hd || tl.any pp)
      rw [ih j' c c' hg hpp]

theorem setAt_fields (m x : Elem) (i : Nat) (ρ : List Nat) :
    (setAt m (i :: ρ) x).ns = m.ns ∧ (setAt m (i :: ρ) x).nm = m.nm ∧
    (setAt m (i :: ρ) x).attrs = m.attrs ∧ (setAt m (i :: ρ) x).etext = m.etext ∧
    (setAt m (i :: ρ) x).tail = m.tail := by
  cases hg : m.children.get? i with
  | some c =>
    have h : setAt m (i :: ρ) x
        = Elem.mk m.ns m.nm m.attrs m.etext (m.children.set i (setAt c ρ x)) m.tail := by
      show (match m.children.get? i with
        | some c0 => Elem.mk m.ns m.nm m.attrs m.etext (m.children.set i (setAt c0 ρ x)) m.tail
        | none => m) = _
      rw [hg]
    rw [h]
    exact ⟨rfl, rfl, rfl, rfl, rfl⟩
  | none =>
    have h : setAt m (i :: ρ) x = m := by
      show (match m.children.get? i with
        | some c0 => Elem.mk m.ns m.nm m.attrs m.etext (m.children.set i (setAt c0 ρ x)) m.tail
        | none => m) = _
      rw [hg]
    rw [h]
    exact ⟨rfl, rfl, rfl, rfl, rfl⟩

theorem setAt_cons_some (m x : Elem) (i : Nat) (ρ : List Nat) (c : Elem)
    (hg : m.children.get? i = some c) :
    setAt m (i :: ρ) x
      = Elem.mk m.ns m.nm m.attrs m.etext (m.children.set i (setAt c ρ x)) m.tail := by
  show (match m.children.get? i with
    | some c0 => Elem.mk m.ns m.nm m.attrs m.etext (m.children.set i (setAt c0 ρ x)) m.tail
    | none => m) = _
  rw [hg]

theorem setAt_children_of_get (m x : Elem) (i : Nat) (ρ : List Nat) (c : Elem)
    (hg : m.children.get? i = some c) :
    (setAt m (i :: ρ) x).children = m.children.set i (setAt c ρ x) := by
  rw [setAt_cons_some m x i ρ c hg]
  rfl

theorem setAt_append : ∀ (π τ : List Nat) (e m x : Elem),
    getAt e π = some m → setAt e (π ++ τ) x = setAt e π (setAt m τ x) := by
  intro π
  induction π with
  | nil =>
    intro τ e m x hg
    have : e = m := Option.some.inj hg
    subst this
    rfl
  | cons i π' ih =>
    intro τ e m x hg
    have hg' : (match e.children.get? i with
      | some c => getAt c π'
      | none => none) = some m := hg
    cases hge : e.children.get? i with
    | none =>
      rw [hge] at hg'
      cases hg'
    | some c =>
      rw [hge] at hg'
      have h1 := setAt_cons_some e x i (π' ++ τ) c hge
      have h2 := setAt_cons_some e (setAt m τ x) i π' c hge
      show setAt e (i :: (π' ++ τ)) x = _
      rw [h1, h2, ih τ c m x hg']

theorem setAt_setAt : ∀ (π : List Nat) (e x y : Elem),
    setAt (setAt e π x) π y = setAt e π y := by
  intro π
  induction π with
  | nil => intro e x y; rfl
  | cons i π' ih =>
    intro e x y
    cases hge : e.children.get? i with
    | none =>
      have h1 : setAt e (i :: π') x = e := by
        show (match e.children.get? i with
          | some c => Elem.mk e.ns e.nm e.attrs e.etext (e.children.set i (setAt c π' x)) e.tail
          | none => e) = e
        rw [hge]
      rw [h1]
    | some c =>
      have h1 := setAt_cons_some e x i π' c hge
      have h2 := setAt_cons_some e y i π' c hge
      have hgetset : (e.children.set i (setAt c π' x)).get? i = some (setAt c π' x) :=
        list_get?_set_self e.children i (setAt c π' x) c hge
      have h3 := setAt_cons_some
        (Elem.mk e.ns e.nm e.attrs e.etext (e.children.set i (setAt c π' x)) e.tail)
        y i π' (setAt c π' x) hgetset
      rw [h1, h3]
      simp only [Elem.ns, Elem.nm, Elem.attrs, Elem.etext, Elem.children, Elem.tail]
      rw [List.set_set, ih c x y, h2]
      rfl

/-! Stability of the first match under replacement at/under the found path,
for predicates that the replacement does not disturb. -/

theorem find_stable (p : Elem → Bool) (t x : Elem)
    (Hp : ∀ (m : Elem) (ρ : List Nat), getAt m ρ = some t → p (setAt m ρ x) = p m) :
    ∀ (π τ : List Nat) (e : Elem),
      findFirstPath p e = some π →
      getAt e (π ++ τ) = some t →
      findFirstPath p (setAt e (π ++ τ) x) = some π := by
  intro π
  induction π with
  | nil =>
    intro τ e hf hg
    have hp : p e = true := find_sound_nil p e hf
    have hp' : p (setAt e ([] ++ τ) x) = p e := Hp e ([] ++ τ) hg
    exact find_build_nil p _ (hp'.trans hp)
  | cons j π' ih =>
    intro τ e hf hg
    simp only [List.cons_append] at hg ⊢
    obtain ⟨hpe, hfl⟩ := find_decomp_cons p e j π' hf
    obtain ⟨c, hgc, hfc, hnone⟩ := findL_decomp p e.children j π' hfl
    have hg' : (match e.children.get? j with
      | some c0 => getAt c0 (π' ++ τ)
      | none => none) = some t := hg
    rw [hgc] at hg'
    have hpe' : p (setAt e (j :: (π' ++ τ)) x) = p e := Hp e (j :: (π' ++ τ)) hg
    have hchild := ih τ c hfc hg'
    have hch := setAt_children_of_get e x j (π' ++ τ) c hgc
    apply find_build_cons
    · rw [hpe']
      exact hpe
    · rw [hch]
      apply findL_build p _ j π' (setAt c (π' ++ τ) x)
      · exact list_get?_set_self e.children j _ c hgc
      · exact hchild
      · intro k hk d hd
        rw [list_get?_set_ne e.children j k _ (by omega)] at hd
        exact hnone k hk d hd

theorem findL_stable (p : Elem → Bool) (t x : Elem)
    (Hp : ∀ (m : Elem) (ρ : List Nat), getAt m ρ = some t → p (setAt m ρ x) = p m)
    (ρ τ : List Nat) (j : Nat) (l : List Elem) (c : Elem)
    (hfl : findFirstPathL p l = some (j, ρ))
    (hg : l.get? j = some c)
    (hgt : getAt c (ρ ++ τ) = some t) :
    findFirstPathL p (l.set j (setAt c (ρ ++ τ) x)) = some (j, ρ) := by
  obtain ⟨c0, hg0, hf0, hnone⟩ := findL_decomp p l j ρ hfl
  have hcc : c0 = c := by
    rw [hg0] at hg
    exact Option.some.inj hg
  subst hcc
  apply findL_build p _ j ρ (setAt c0 (ρ ++ τ) x)
  · exact list_get?_set_self l j _ c0 hg0
  · exact find_stable p t x Hp ρ τ c0 hf0 hgt
  · intro k hk d hd
    rw [list_get?_set_ne l j k _ (by omega)] at hd
    exact hnone k hk d hd

theorem find_none_setAt (p : Elem → Bool) (t x : Elem)
    (Hp : ∀ (m : Elem) (ρ : List Nat), getAt m ρ = some t → p (setAt m ρ x) = p m) :
    ∀ (ρ : List Nat) (e : Elem),
      getAt e ρ = some t → findFirstPath p e = none → findFirstPath p x = none →
      findFirstPath p (setAt e ρ x) = none := by
  intro ρ
  induction ρ with
  | nil => exact fun e _ _ hnx => hnx
  | cons i ρ' ih =>
    intro e hg hne hnx
    obtain ⟨hpe, hfl⟩ := find_none_decomp p e hne
    have hg' : (match e.children.get? i with
      | some c => getAt c ρ'
      | none => none) = some t := hg
    cases hge : e.children.get? i with
    | none => rw [hge] at hg'; cases hg'
    | some c =>
      rw [hge] at hg'
      have hnc : findFirstPath p c = none :=
        findL_none_forall p e.children hfl c (List.get?_mem hge)
      have hch := setAt_children_of_get e x i ρ' c hge
      apply find_none_build
      · rw [Hp e (i :: ρ') hg]
        exact hpe
      · rw [hch]
        apply findL_none_of_forall
        intro d hd
        rcases List.mem_or_eq_of_mem_set hd with hmem | rfl
        · exact findL_none_forall p e.children hfl d hmem
        · exact ih c hg' hnc hnx

theorem findL_none_setAt (p : Elem → Bool) (t x : Elem)
    (Hp : ∀ (m : Elem) (ρ : List Nat), getAt m ρ = some t → p (setAt m ρ x) = p m)
    (ρ : List Nat) (j : Nat) (l : List Elem) (c : Elem)
    (hg : l.get? j = some c)
    (hgt : getAt c ρ = some t)
    (hfl : findFirstPathL p l = none)
    (hnx : findFirstPath p x = none) :
    findFirstPathL p (l.set j (setAt c ρ x)) = none := by
  apply findL_none_of_forall
  intro d hd
  rcases List.mem_or_eq_of_mem_set hd with hmem | rfl
  · exact findL_none_forall p l hfl d hmem
  · exact find_none_setAt p t x Hp ρ c hgt
      (findL_none_forall p l hfl c (List.get?_mem hg)) hnx

/-! Predicate unfoldings and txBody-freeness. -/

/-- `p:nvPr` holding a body placeholder (the innermost predicate level of
the primary xpath). -/
def nvPrPred (e : Elem) : Bool :=
  isTag pNS "nvPr" e && e.children.any isPhBody

/-- `p:nvSpPr` holding such a `p:nvPr`. -/
def nvSpPrPred (e : Elem) : Bool :=
  isTag pNS "nvSpPr" e && e.children.any nvPrPred

theorem primarySp_eq (e : Elem) :
    primarySp e = (isTag pNS "sp" e && e.children.any nvSpPrPred) := rfl

theorem containsATx_eq (e : Elem) :
    containsATx e = ((e.ns == aNS && e.nm == "txBody") || containsATxL e.children) := by
  cases e with
  | mk ns nm ats tx ch tl => rfl

theorem containsATxL_eq_any : ∀ (l : List Elem), containsATxL l = l.any containsATx := by
  intro l
  induction l with
  | nil => rfl
  | cons c cs ih =>
    show (containsATx c || containsATxL cs) = (containsATx c || cs.any containsATx)
    rw [ih]

mutual
/-- No `p:txBody` or `a:txBody` occurs anywhere in the subtree of `e`. -/
def txFree : Elem → Bool
  | .mk ns nm _ _ ch _ => !((ns == pNS || ns == aNS) && nm == "txBody") && txFreeL ch
def txFreeL : List Elem → Bool
  | [] => true
  | c :: cs => txFree c && txFreeL cs
end

mutual
theorem txFree_no_ATx : ∀ (e : Elem), txFree e = true → containsATx e = false
  | .mk ns nm ats tx ch tl, h => by
    unfold txFree at h
    unfold containsATx
    have h1 : (!((ns == pNS || ns == aNS) && nm == "txBody")) = true :=
      (Bool.and_eq_true_iff.mp h).1
    have h2 : txFreeL ch = true := (Bool.and_eq_true_iff.mp h).2
    rw [txFreeL_no_ATxL ch h2]
    have : ((ns == pNS || ns == aNS) && nm == "txBody") = false := by
      cases hb : ((ns == pNS || ns == aNS) && nm == "txBody") with
      | true => rw [hb] at h1; exact absurd h1 (by decide)
      | false => rfl
    cases hns : (ns == aNS) with
    | false => simp [hns]
    | true =>
      have : (nm == "txBody") = false := by
        cases hnm : (nm == "txBody") with
        | false => rfl
        | true =>
          rw [hns, hnm] at this
          simp at this
      simp [this]
theorem txFreeL_no_ATxL : ∀ (l : List Elem), txFreeL l = true → containsATxL l = false
  | [], _ => rfl
  | c :: cs, h => by
    unfold txFreeL at h
    unfold containsATxL
    rw [txFree_no_ATx c (Bool.and_eq_true_iff.mp h).1,
      txFreeL_no_ATxL cs (Bool.and_eq_true_iff.mp h).2]
    rfl
end

theorem containsATxL_filter_false (q : Elem → Bool) :
    ∀ (l : List Elem), containsATxL l = false → containsATxL (l.filter q) = false := by
  intro l
  induction l with
  | nil => intro _; rfl
  | cons c cs ih =>
    intro h
    have h' : (containsATx c || containsATxL cs) = false := h
    have hc : containsATx c = false := by
      cases hb : containsATx c with
      | false => rfl
      | true => rw [hb] at h'; simp at h'
    have hcs : containsATxL cs = false := by
      cases hb : containsATxL cs with
      | false => rfl
      | true => rw [hb] at h'; simp at h'
    rw [List.filter_cons]
    cases hq : q c with
    | true =>
      simp only [if_pos]
      show (containsATx c || containsATxL (cs.filter q)) = false
      rw [hc, ih hcs]
      rfl
    | false =>
      simp only [Bool.false_eq_true, if_false]
      exact ih hcs

/-! The built paragraphs are inert for every predicate the search uses. -/

theorem containsATx_mkParagraph (l : String) : containsATx (mkParagraph l) = false := by
  cases hb : isBoldLine l <;> simp only [mkParagraph, mkRun, hb] <;> rfl

theorem find_pTx_mkParagraph (l : String) :
    findFirstPath (isTag pNS "txBody") (mkParagraph l) = none := by
  cases hb : isBoldLine l <;> simp only [mkParagraph, mkRun, hb] <;> rfl

theorem find_aTx_mkParagraph (l : String) :
    findFirstPath (isTag aNS "txBody") (mkParagraph l) = none := by
  cases hb : isBoldLine l <;> simp only [mkParagraph, mkRun, hb] <;> rfl

theorem find_primarySp_mkParagraph (l : String) :
    findFirstPath primarySp (mkParagraph l) = none := by
  cases hb : isBoldLine l <;> simp only [mkParagraph, mkRun, hb] <;> rfl

theorem containsATxL_map_mkParagraph (ls : List String) :
    containsATxL (ls.map mkParagraph) = false := by
  induction ls with
  | nil => rfl
  | cons l ls ih =>
    show (containsATx (mkParagraph l) || containsATxL (ls.map mkParagraph)) = false
    rw [containsATx_mkParagraph, ih]
    rfl

theorem containsATxL_append : ∀ (l1 l2 : List Elem),
    containsATxL (l1 ++ l2) = (containsATxL l1 || containsATxL l2) := by
  intro l1 l2
  induction l1 with
  | nil => rfl
  | cons c cs ih =>
    show (containsATx c || containsATxL (cs ++ l2)) = ((containsATx c || containsATxL cs) || _)
    rw [ih, Bool.or_assoc]

/-! Preservation of the search predicates under replacement of the target
text body (whose tag is `txBody`) by the rewritten one. -/

theorem setAt_cons_none (m x : Elem) (i : Nat) (ρ : List Nat)
    (hg : m.children.get? i = none) : setAt m (i :: ρ) x = m := by
  show (match m.children.get? i with
    | some c0 => Elem.mk m.ns m.nm m.attrs m.etext (m.children.set i (setAt c0 ρ x)) m.tail
    | none => m) = m
  rw [hg]

theorem isTag_false_of_nm (ns0 nm0 : String) (e : Elem) (h : (e.nm == nm0) = false) :
    isTag ns0 nm0 e = false := by
  unfold isTag
  rw [h]
  simp

theorem isTag_setAt (ns0 nm0 : String) (t x : Elem)
    (hx : isTag ns0 nm0 x = isTag ns0 nm0 t) :
    ∀ (m : Elem) (ρ : List Nat), getAt m ρ = some t →
      isTag ns0 nm0 (setAt m ρ x) = isTag ns0 nm0 m := by
  intro m ρ hg
  cases ρ with
  | nil =>
    have hm : m = t := Option.some.inj hg
    subst hm
    exact hx
  | cons i ρ' =>
    obtain ⟨h1, h2, -, -, -⟩ := setAt_fields m x i ρ'
    unfold isTag
    rw [h1, h2]

theorem isPhBody_false_of_txBody (e : Elem) (h : e.nm = "txBody") : isPhBody e = false := by
  have hnm : (e.nm == "ph") = false := by rw [h]; decide
  unfold isPhBody isTag
  rw [hnm]
  simp

theorem isPhBody_setAt (t x : Elem) (ht : t.nm = "txBody") (hx : x.nm = "txBody") :
    ∀ (m : Elem) (ρ : List Nat), getAt m ρ = some t →
      isPhBody (setAt m ρ x) = isPhBody m := by
  intro m ρ hg
  cases ρ with
  | nil =>
    have hm : m = t := Option.some.inj hg
    subst hm
    show isPhBody x = isPhBody m
    rw [isPhBody_false_of_txBody x hx, isPhBody_false_of_txBody m ht]
  | cons i ρ' =>
    obtain ⟨h1, h2, h3, -, -⟩ := setAt_fields m x i ρ'
    unfold isPhBody isTag getAttr
    rw [h1, h2, h3]

/-- Lifts predicate preservation one level up the primary xpath: a level is
`p:<tagNm>` whose children satisfy the lower-level predicate `q`. -/
theorem level_setAt (q : Elem → Bool) (tagNm : String) (t x : Elem)
    (ht : t.nm = "txBody") (hx : x.nm = "txBody")
    (hq : ∀ (m : Elem) (ρ : List Nat), getAt m ρ = some t → q (setAt m ρ x) = q m)
    (hTagNe : (("txBody" : String) == tagNm) = false) :
    ∀ (m : Elem) (ρ : List Nat), getAt m ρ = some t →
      (isTag pNS tagNm (setAt m ρ x) && (setAt m ρ x).children.any q)
        = (isTag pNS tagNm m && m.children.any q) := by
  intro m ρ hg
  cases ρ with
  | nil =>
    have hm : m = t := Option.some.inj hg
    subst hm
    show (isTag pNS tagNm x && x.children.any q) = _
    rw [isTag_false_of_nm pNS tagNm x (by rw [hx]; exact hTagNe),
      isTag_false_of_nm pNS tagNm m (by rw [ht]; exact hTagNe)]
    rfl
  | cons i ρ' =>
    obtain ⟨h1, h2, -, -, -⟩ := setAt_fields m x i ρ'
    cases hge : m.children.get? i with
    | none => rw [setAt_cons_none m x i ρ' hge]
    | some c =>
      have hgc : getAt c ρ' = some t := by
        have hg' : (match m.children.get? i with
          | some c0 => getAt c0 ρ'
          | none => none) = some t := hg
        rw [hge] at hg'
        exact hg'
      have hany : ((setAt m (i :: ρ') x).children.any q) = (m.children.any q) := by
        rw [setAt_children_of_get m x i ρ' c hge]
        exact list_any_set q m.children i c (setAt c ρ' x) hge (hq c ρ' hgc)
      unfold isTag
      rw [h1, h2, hany]

theorem nvPrPred_setAt (t x : Elem) (ht : t.nm = "txBody") (hx : x.nm = "txBody") :
    ∀ (m : Elem) (ρ : List Nat), getAt m ρ = some t →
      nvPrPred (setAt m ρ x) = nvPrPred m :=
  fun m ρ hg =>
    level_setAt isPhBody "nvPr" t x ht hx (isPhBody_setAt t x ht hx) (by decide) m ρ hg

theorem nvSpPrPred_setAt (t x : Elem) (ht : t.nm = "txBody") (hx : x.nm = "txBody") :
    ∀ (m : Elem) (ρ : List Nat), getAt m ρ = some t →
      nvSpPrPred (setAt m ρ x) = nvSpPrPred m :=
  fun m ρ hg =>
    level_setAt nvPrPred "nvSpPr" t x ht hx (nvPrPred_setAt t x ht hx) (by decide) m ρ hg

theorem primarySp_setAt (t x : Elem) (ht : t.nm = "txBody") (hx : x.nm = "txBody") :
    ∀ (m : Elem) (ρ : List Nat), getAt m ρ = some t →
      primarySp (setAt m ρ x) = primarySp m := by
  intro m ρ hg
  rw [primarySp_eq, primarySp_eq]
  exact level_setAt nvSpPrPred "sp" t x ht hx (nvSpPrPred_setAt t x ht hx) (by decide) m ρ hg

theorem containsATx_setAt (t x : Elem) (hhere : containsATx x = containsATx t) :
    ∀ (ρ : List Nat) (m : Elem), getAt m ρ = some t →
      containsATx (setAt m ρ x) = containsATx m := by
  intro ρ
  induction ρ with
  | nil =>
    intro m hg
    have hm : m = t := Option.some.inj hg
    subst hm
    exact hhere
  | cons i ρ' ih =>
    intro m hg
    cases hge : m.children.get? i with
    | none => rw [setAt_cons_none m x i ρ' hge]
    | some c =>
      have hgc : getAt c ρ' = some t := by
        have hg' : (match m.children.get? i with
          | some c0 => getAt c0 ρ'
          | none => none) = some t := hg
        rw [hge] at hg'
        exact hg'
      obtain ⟨h1, h2, -, -, -⟩ := setAt_fields m x i ρ'
      rw [containsATx_eq (setAt m (i :: ρ') x), containsATx_eq m, h1, h2,
        setAt_children_of_get m x i ρ' c hge, containsATxL_eq_any, containsATxL_eq_any,
        list_any_set containsATx m.children i c (setAt c ρ' x) hge (ih c hgc)]

theorem fallbackSp_setAt (t x : Elem) (ht : t.nm = "txBody") (hx : x.nm = "txBody")
    (hhere : containsATx x = containsATx t) :
    ∀ (m : Elem) (ρ : List Nat), getAt m ρ = some t →
      fallbackSp (setAt m ρ x) = fallbackSp m := by
  intro m ρ hg
  cases ρ with
  | nil =>
    have hm : m = t := Option.some.inj hg
    subst hm
    show fallbackSp x = fallbackSp m
    unfold fallbackSp
    rw [isTag_false_of_nm pNS "sp" x (by rw [hx]; decide),
      isTag_false_of_nm pNS "sp" m (by rw [ht]; decide)]
    rfl
  | cons i ρ' =>
    unfold fallbackSp
    obtain ⟨h1, h2, -, -, -⟩ := setAt_fields m x i ρ'
    cases hge : m.children.get? i with
    | none => rw [setAt_cons_none m x i ρ' hge]
    | some c =>
      have hgc : getAt c ρ' = some t := by
        have hg' : (match m.children.get? i with
          | some c0 => getAt c0 ρ'
          | none => none) = some t := hg
        rw [hge] at hg'
        exact hg'
      unfold isTag
      rw [h1, h2, setAt_children_of_get m x i ρ' c hge, containsATxL_eq_any, containsATxL_eq_any,
        list_any_set containsATx m.children i c (setAt c ρ' x) hge
          (containsATx_setAt t x hhere ρ' c hgc)]

/-! Facts about the rewritten text body. -/

theorem rewriteTxBody_children (T : String) (tx : Elem) :
    (rewriteTxBody T tx).children
      = tx.children.filter (fun c => !(isTag aNS "p" c)) ++ (linesOf T).map mkParagraph := rfl

theorem containsATx_rewrite (T : String) (tx : Elem) (hfree : txFreeL tx.children = true) :
    containsATx (rewriteTxBody T tx) = containsATx tx := by
  rw [containsATx_eq, containsATx_eq]
  have h0 : containsATxL tx.children = false := txFreeL_no_ATxL tx.children hfree
  have h1 : containsATxL (rewriteTxBody T tx).children = false := by
    rw [rewriteTxBody_children, containsATxL_append,
      containsATxL_filter_false _ tx.children h0, containsATxL_map_mkParagraph]
    rfl
  rw [h0, h1]
  rfl

theorem find_none_rewrite (p : Elem → Bool) (T : String) (tx : Elem)
    (hptx : p (rewriteTxBody T tx) = false)
    (hch : findFirstPathL p tx.children = none)
    (hpara : ∀ l, findFirstPath p (mkParagraph l) = none) :
    findFirstPath p (rewriteTxBody T tx) = none := by
  apply find_none_build p _ hptx
  rw [rewriteTxBody_children]
  apply findL_none_of_forall
  intro c hc
  rcases List.mem_append.mp hc with hmem | hmem
  · exact findL_none_forall p tx.children hch c (List.mem_of_mem_filter hmem)
  · obtain ⟨l, -, rfl⟩ := List.mem_map.mp hmem
    exact hpara l

theorem rewriteTxBody_idem (T : String) (tx : Elem) :
    rewriteTxBody T (rewriteTxBody T tx) = rewriteTxBody T tx := by
  have hch : (rewriteTxBody T tx).children.filter (fun c => !(isTag aNS "p" c))
      = tx.children.filter (fun c => !(isTag aNS "p" c)) := by
    rw [rewriteTxBody_children, List.filter_append]
    have h1 : ((linesOf T).map mkParagraph).filter (fun c => !(isTag aNS "p" c)) = [] := by
      rw [List.filter_eq_nil_iff]
      intro a ha
      obtain ⟨l, -, rfl⟩ := List.mem_map.mp ha
      simp [mkParagraph_isAP l]
    have h2 : (tx.children.filter (fun c => !(isTag aNS "p" c))).filter
        (fun c => !(isTag aNS "p" c)) = tx.children.filter (fun c => !(isTag aNS "p" c)) := by
      rw [List.filter_filter]
      apply List.filter_congr
      intro c _
      exact Bool.and_self _
    rw [h1, h2, List.append_nil]
  show Elem.mk (rewriteTxBody T tx).ns (rewriteTxBody T tx).nm (rewriteTxBody T tx).attrs
      (rewriteTxBody T tx).etext
      ((rewriteTxBody T tx).children.filter (fun c => !(isTag aNS "p" c))
        ++ (linesOf T).map mkParagraph)
      (rewriteTxBody T tx).tail = rewriteTxBody T tx
  rw [hch]
  rfl

theorem findNotesTarget_decomp (root : Elem) (π : List Nat) (tx : Elem)
    (h : findNotesTarget root = some (π, tx)) :
    ∃ spPath sp i rest, findSpPath root = some spPath ∧ getAt root spPath = some sp ∧
      findTxPathIn sp = some (i, rest) ∧ getAt sp (i :: rest) = some tx ∧
      π = spPath ++ i :: rest := by
  unfold findNotesTarget at h
  cases hsp : findSpPath root with
  | none =>
    simp only [hsp] at h
    exact Option.noConfusion h
  | some spPath =>
    simp only [hsp] at h
    cases hget : getAt root spPath with
    | none =>
      simp only [hget] at h
      exact Option.noConfusion h
    | some sp =>
      simp only [hget] at h
      cases htx : findTxPathIn sp with
      | none =>
        simp only [htx] at h
        exact Option.noConfusion h
      | some ir =>
        obtain ⟨i, rest⟩ := ir
        simp only [htx] at h
        cases hgt : getAt sp (i :: rest) with
        | none =>
          simp only [hgt] at h
          exact Option.noConfusion h
        | some tx' =>
          simp only [hgt, Option.some.injEq, Prod.mk.injEq] at h
          obtain ⟨h1, h2⟩ := h
          subst h2
          exact ⟨spPath, sp, i, rest, rfl, hget, htx, hgt, h1.symm⟩

theorem nm_txBody_of_isTag (ns0 : String) (tx : Elem) (h : isTag ns0 "txBody" tx = true) :
    tx.nm = "txBody" := by
  unfold isTag at h
  exact beq_iff_eq.mp (Bool.and_eq_true_iff.mp h).2

theorem findTxPathIn_sound (sp : Elem) (i : Nat) (rest : List Nat) (tx : Elem)
    (htx : findTxPathIn sp = some (i, rest)) (hgt : getAt sp (i :: rest) = some tx) :
    tx.nm = "txBody" := by
  unfold findTxPathIn at htx
  have hgt' : (match sp.children.get? i with
    | some c => getAt c rest
    | none => none) = some tx := hgt
  cases hp : findFirstPathL (isTag pNS "txBody") sp.children with
  | some ir =>
    rw [hp] at htx
    have hir : ir = (i, rest) := Option.some.inj htx
    subst hir
    obtain ⟨c, hgc, hfc, -⟩ := findL_decomp _ sp.children i rest hp
    rw [hgc] at hgt'
    obtain ⟨n, hn1, hn2⟩ := find_sound _ rest c hfc
    have : n = tx := Option.some.inj (hn1.symm.trans hgt')
    subst this
    exact nm_txBody_of_isTag pNS n hn2
  | none =>
    simp only [hp] at htx
    obtain ⟨c, hgc, hfc, -⟩ := findL_decomp _ sp.children i rest htx
    rw [hgc] at hgt'
    obtain ⟨n, hn1, hn2⟩ := find_sound _ rest c hfc
    have : n = tx := Option.some.inj (hn1.symm.trans hgt')
    subst this
    exact nm_txBody_of_isTag aNS n hn2

/-- Re-running the target search on the rewritten tree finds the same text
body (now rewritten), provided no txBody was nested below the target. -/
theorem findNotesTarget_setAt (root : Elem) (π : List Nat) (tx : Elem) (T : String)
    (hft : findNotesTarget root = some (π, tx))
    (hfree : txFreeL tx.children = true) :
    findNotesTarget (setAt root π (rewriteTxBody T tx))
      = some (π, rewriteTxBody T tx) := by
  obtain ⟨spPath, sp, i, rest, hsp, hget, htx, hgt, hπ⟩ := findNotesTarget_decomp root π tx hft
  subst hπ
  have htnm : tx.nm = "txBody" := findTxPathIn_sound sp i rest tx htx hgt
  have hXnm : (rewriteTxBody T tx).nm = "txBody" := htnm
  have hgtx : getAt root (spPath ++ i :: rest) = some tx := by
    rw [getAt_append, hget]
    exact hgt
  have HpPrim : ∀ (m : Elem) (ρ : List Nat), getAt m ρ = some tx →
      primarySp (setAt m ρ (rewriteTxBody T tx)) = primarySp m :=
    primarySp_setAt tx (rewriteTxBody T tx) htnm hXnm
  have hhere : containsATx (rewriteTxBody T tx) = containsATx tx :=
    containsATx_rewrite T tx hfree
  have HpFall : ∀ (m : Elem) (ρ : List Nat), getAt m ρ = some tx →
      fallbackSp (setAt m ρ (rewriteTxBody T tx)) = fallbackSp m :=
    fallbackSp_setAt tx (rewriteTxBody T tx) htnm hXnm hhere
  have HpPTag : ∀ (m : Elem) (ρ : List Nat), getAt m ρ = some tx →
      isTag pNS "txBody" (setAt m ρ (rewriteTxBody T tx)) = isTag pNS "txBody" m :=
    isTag_setAt pNS "txBody" tx (rewriteTxBody T tx) rfl
  have HpATag : ∀ (m : Elem) (ρ : List Nat), getAt m ρ = some tx →
      isTag aNS "txBody" (setAt m ρ (rewriteTxBody T tx)) = isTag aNS "txBody" m :=
    isTag_setAt aNS "txBody" tx (rewriteTxBody T tx) rfl
  have hout : setAt root (spPath ++ i :: rest) (rewriteTxBody T tx)
      = setAt root spPath (setAt sp (i :: rest) (rewriteTxBody T tx)) :=
    setAt_append spPath (i :: rest) root sp (rewriteTxBody T tx) hget
  have hgt'' : (match sp.children.get? i with
    | some c0 => getAt c0 rest
    | none => none) = some tx := hgt
  cases hci : sp.children.get? i with
  | none =>
    rw [hci] at hgt''
    exact absurd hgt'' (by simp)
  | some c =>
    rw [hci] at hgt''
    have hchrw : (setAt sp (i :: rest) (rewriteTxBody T tx)).children
        = sp.children.set i (setAt c rest (rewriteTxBody T tx)) :=
      setAt_children_of_get sp (rewriteTxBody T tx) i rest c hci
    have hsp' : findSpPath (setAt root (spPath ++ i :: rest) (rewriteTxBody T tx))
        = some spPath := by
      unfold findSpPath at hsp ⊢
      cases hprim : findFirstPath primarySp root with
      | some π0 =>
        rw [hprim] at hsp
        have hps : π0 = spPath := Option.some.inj hsp
        subst hps
        have hstab := find_stable primarySp tx (rewriteTxBody T tx) HpPrim
          π0 (i :: rest) root hprim hgtx
        simp only [hstab]
      | none =>
        rw [hprim] at hsp
        have hsp2 : findFirstPath fallbackSp root = some spPath := hsp
        have hnprim : findFirstPath primarySp
            (setAt root (spPath ++ i :: rest) (rewriteTxBody T tx)) = none := by
          apply find_none_setAt primarySp tx (rewriteTxBody T tx) HpPrim
            (spPath ++ i :: rest) root hgtx hprim
          apply find_none_rewrite primarySp T tx
          · rw [primarySp_eq, isTag_false_of_nm pNS "sp" _ (by rw [hXnm]; decide)]
            rfl
          · have h1 : findFirstPath primarySp tx = none :=
              find_none_getAt primarySp (spPath ++ i :: rest) root tx hgtx hprim
            exact (find_none_decomp primarySp tx h1).2
          · exact find_primarySp_mkParagraph
        have hfall' := find_stable fallbackSp tx (rewriteTxBody T tx) HpFall
          spPath (i :: rest) root hsp2 hgtx
        simp only [hnprim, hfall']
    have hget' : getAt (setAt root (spPath ++ i :: rest) (rewriteTxBody T tx)) spPath
        = some (setAt sp (i :: rest) (rewriteTxBody T tx)) := by
      rw [hout]
      exact getAt_setAt spPath root sp (setAt sp (i :: rest) (rewriteTxBody T tx)) hget
    have hcrest : getAt c (rest ++ []) = some tx := by
      rw [List.append_nil]
      exact hgt''
    have htx' : findTxPathIn (setAt sp (i :: rest) (rewriteTxBody T tx))
        = some (i, rest) := by
      unfold findTxPathIn at htx ⊢
      cases hptag : findFirstPathL (isTag pNS "txBody") sp.children with
      | some ir =>
        rw [hptag] at htx
        have hirr : ir = (i, rest) := Option.some.inj htx
        subst hirr
        have hstab := findL_stable (isTag pNS "txBody") tx (rewriteTxBody T tx) HpPTag
          rest [] i sp.children c hptag hci hcrest
        rw [List.append_nil] at hstab
        simp only [hchrw, hstab]
      | none =>
        rw [hptag] at htx
        have htx2 : findFirstPathL (isTag aNS "txBody") sp.children = some (i, rest) := htx
        have hnone' : findFirstPathL (isTag pNS "txBody")
            (setAt sp (i :: rest) (rewriteTxBody T tx)).children = none := by
          rw [hchrw]
          apply findL_none_setAt (isTag pNS "txBody") tx (rewriteTxBody T tx) HpPTag
            rest i sp.children c hci hgt'' hptag
          have h1 : findFirstPath (isTag pNS "txBody") c = none :=
            findL_none_forall _ sp.children hptag c (List.get?_mem hci)
          have h2 : findFirstPath (isTag pNS "txBody") tx = none :=
            find_none_getAt _ rest c tx hgt'' h1
          apply find_none_rewrite
          · exact (find_none_decomp _ tx h2).1
          · exact (find_none_decomp _ tx h2).2
          · exact find_pTx_mkParagraph
        have hstab := findL_stable (isTag aNS "txBody") tx (rewriteTxBody T tx) HpATag
          rest [] i sp.children c htx2 hci hcrest
        rw [List.append_nil] at hstab
        rw [hchrw] at hnone'
        simp only [hchrw, hnone', hstab]
    have hgt2 : getAt (setAt sp (i :: rest) (rewriteTxBody T tx)) (i :: rest)
        = some (rewriteTxBody T tx) :=
      getAt_setAt (i :: rest) sp tx (rewriteTxBody T tx) hgt
    unfold findNotesTarget
    simp only [hsp', hget', htx', hgt2]

/-- Claim C7 (amended): `_set_notes_text` is deterministic (it is a pure
function of the input bytes and text), and it is idempotent provided no
`p:txBody`/`a:txBody` element is nested below the located text body (true
of every schema-conforming notes part).  Without that proviso idempotence
fails — see the counterexample, where a nested `a:txBody` sits inside a
removed paragraph and the second run rewrites a different shape. -/
theorem claim_C7 (root : Elem) (T : String)
    (hcond : ∀ (π : List Nat) (tx : Elem),
      findNotesTarget root = some (π, tx) → txFreeL tx.children = true) :
    set_notes_text root T = set_notes_text root T ∧
    set_notes_text (set_notes_text root T) T = set_notes_text root T := by
  refine ⟨rfl, ?_⟩
  cases hft : findNotesTarget root with
  | none =>
    have hid : set_notes_text root T = root := by
      unfold set_notes_text
      rw [hft]
    rw [hid, hid]
  | some πtx =>
    obtain ⟨π, tx⟩ := πtx
    have hfree := hcond π tx hft
    have h1 : set_notes_text root T = setAt root π (rewriteTxBody T tx) := by
      unfold set_notes_text
      rw [hft]
    have h2 := findNotesTarget_setAt root π tx T hft hfree
    have h3 : set_notes_text (setAt root π (rewriteTxBody T tx)) T
        = setAt (setAt root π (rewriteTxBody T tx)) π
            (rewriteTxBody T (rewriteTxBody T tx)) := by
      unfold set_notes_text
      rw [h2]
    rw [h1, h3, rewriteTxBody_idem, setAt_setAt]

/-- Witness for `claim_C7`: on the concrete well-formed notes part the
rewrite is idempotent. -/
theorem claim_C7_witness :
    set_notes_text (set_notes_text cNotesRoot "w") "w" = set_notes_text cNotesRoot "w" :=
  (claim_C7 cNotesRoot "w" (fun π tx h => by
    have h1 : findNotesTarget cNotesRoot = some ([0, 0, 0, 1], cTxBody) := rfl
    have h2 := Option.some.inj (h1.symm.trans h)
    have h4 : cTxBody = tx := congrArg Prod.snd h2
    rw [← h4]
    rfl)).2
